import Mathlib

/-!
# Impact analysis driver: a shallow embedding of `impact.go`

The program is an orchestration script: it shells out to `git`, to the `go`
command and to the filesystem.  The embedding keeps the control flow of
`RunImpact`, `runForDependent`, `applyModuleReplacements`, `runTests`,
`passFail` and `classify` as they are written, threads an explicit world
state through every external call, and records every external call and every
printed line in a trace.  The external collaborators are the fields of `Env`.
Strings are sequences of characters; the strings of the program come from
JSON documents and path names, where the byte-wise operations of Go
(`HasPrefix`, `TrimPrefix`, `Clean`) agree with the character-wise ones.
-/

namespace Impact

/-! ## Go library functions used by the program -/

/-- Go `strings.HasPrefix(s, p)`. -/
def hasPrefix (s p : String) : Bool :=
  p.data.isPrefixOf s.data

/-- Go `strings.TrimPrefix(s, p)`: `s` without the leading `p` when `s` starts
with `p`, otherwise `s` unchanged. -/
def trimPrefix (s p : String) : String :=
  if hasPrefix s p then ⟨s.data.drop p.data.length⟩ else s

/-- Go `strings.Join(elems, sep)` on character lists. -/
def strJoin (sep : List Char) : List (List Char) → List Char
  | [] => []
  | [e] => e
  | e :: es => e ++ sep ++ strJoin sep es

/-- The output buffer of `filepath.Clean`, backtracked for a `..` element:
`out.w--`, then `out.w--` again while `out.w > dotdot` and the byte at `out.w`
is not a separator.  The buffer is kept reversed, `w` is its length. -/
def cleanBacktrack (dotdot : Nat) : List Char → List Char
  | [] => []
  | c :: rest =>
    if rest.length > dotdot ∧ c ≠ '/' then cleanBacktrack dotdot rest else rest

/-- Copy of a real path element in `filepath.Clean`: the bytes up to the next
separator are appended to the (reversed) buffer; returns the buffer and the
unread input. -/
def cleanCopy : List Char → List Char → List Char × List Char
  | out, [] => (out, [])
  | out, c :: rest => if c = '/' then (out, c :: rest) else cleanCopy (c :: out) rest

/-- The main loop of Go `filepath.Clean` (Unix): the unread input `path[r:]`
is `c :: rest`, `out` is the reversed output buffer, `dotdot` the index where
`..` must stop.  The four cases are those of the `switch`: an empty element, a
`.` element, a `..` element, a real element.  One unit of fuel per iteration;
every iteration reads at least one byte, so the length of the input suffices. -/
def cleanLoop (rooted : Bool) : Nat → List Char → List Char → Nat → List Char
  | 0, _, out, _ => out
  | _ + 1, [], out, _ => out
  | fuel + 1, c :: rest, out, dotdot =>
    if c = '/' then cleanLoop rooted fuel rest out dotdot
    else if c = '.' ∧ (rest = [] ∨ rest.head? = some '/') then
      cleanLoop rooted fuel rest out dotdot
    else if c = '.' ∧ rest.head? = some '.' ∧
        (rest.tail = [] ∨ rest.tail.head? = some '/') then
      if out.length > dotdot then
        cleanLoop rooted fuel rest.tail (cleanBacktrack dotdot out) dotdot
      else if !rooted then
        let out1 := if out.length > 0 then '/' :: out else out
        cleanLoop rooted fuel rest.tail ('.' :: '.' :: out1) (out1.length + 2)
      else cleanLoop rooted fuel rest.tail out dotdot
    else
      let out1 :=
        if (rooted ∧ out.length ≠ 1) ∨ (!rooted ∧ out.length ≠ 0) then '/' :: out else out
      let p := cleanCopy out1 (c :: rest)
      cleanLoop rooted fuel p.2 p.1 dotdot

/-- Go `filepath.Clean` on Unix (separator `/`, no volume name): the shortest
path name equivalent to `path` by purely lexical processing. -/
def clean (path : List Char) : List Char :=
  match path with
  | [] => ['.']
  | c :: _ =>
    let rooted : Bool := c = '/'
    let out :=
      if rooted then cleanLoop rooted path.length path.tail ['/'] 1
      else cleanLoop rooted path.length path [] 0
    if out.length = 0 then ['.'] else out.reverse

/-- Go `filepath.Join(elem...)` on Unix: the elements from the first non-empty
one on are joined with `/` and the result is cleaned; when every element is
empty the result is the empty string. -/
def join : List String → String
  | [] => ""
  | e :: es =>
    if e = "" then join es
    else ⟨clean (strJoin ['/'] ((e :: es).map String.data))⟩

/-! ## `classify` and `passFail` -/

/-- Result of one test phase (`TestResult`); the duration is the elapsed time
reported by the clock, in nanoseconds. -/
structure TestResult where
  Passed : Bool
  Duration : Nat
  deriving DecidableEq, Repr

/-- Source `passFail`. -/
def passFail (r : TestResult) : String :=
  if r.Passed then "PASS" else "FAIL"

/-- Source `classify`: the `switch` of four cases on the two pass flags. -/
def classify (released modified : Bool) : String :=
  if released && modified then "UNCHANGED"
  else if released && !modified then "REGRESSION"
  else if !released && modified then "IMPROVEMENT"
  else "UNCHANGED-FAIL"

/-! ## Configuration (`config.go`) -/

/-- Source `TargetConfig`. -/
structure TargetConfig where
  RepoURL : String
  ModulePrefix : String
  ReleasedRef : String
  ModifiedLocalPath : String
  deriving DecidableEq, Repr

/-- Source `DependentConfig`. -/
structure DependentConfig where
  RepoURL : String
  ModulePath : String
  Ref : String
  deriving DecidableEq, Repr

/-- Source `Config`. -/
structure Config where
  Target : TargetConfig
  Dependents : List DependentConfig
  deriving DecidableEq, Repr

/-! ## External calls, trace and state -/

/-- The two editing flags of `go mod edit` that the program passes:
`-dropreplace=<old>` and `-replace=<old>=<new>`. -/
inductive EditFlag where
  | dropreplace (old : String)
  | replace (old new : String)
  deriving DecidableEq, Repr

/-- One observable step of a run: a printed line or an external call, with the
arguments the program passes. -/
inductive Event where
  | println (line : String)
  | printDuration (d : Nat)
  | mkdirTemp
  | removeAll (path : String)
  | gitClone (url ref dest : String)
  | goModEdit (dir : String) (flag : EditFlag)
  | goModTidy (dir : String)
  | goList (dir : String)
  | stat (path : String)
  | goTest (dir : String)
  deriving DecidableEq, Repr

/-- The external collaborators over a world `W` (filesystem, network, tool
state).  A command returns the new world and its error (`none` is Go `nil`).
`goList` is what `listModules` obtains from `go list -m -json all`: the decoded
`Path` fields, or the error of the pipe, the start or the wait.  `goTest`
returns whether `go test -count=1 ./...` exited with success and the elapsed
time. -/
structure Env (W : Type) where
  mkdirTemp : W → W × Except String String
  removeAll : W → String → W
  gitClone : W → String → String → String → W × Option String
  goModEdit : W → String → EditFlag → W × Option String
  goModTidy : W → String → W × Option String
  goList : W → String → W × Except String (List String)
  stat : W → String → Bool
  goTest : W → String → W × Bool × Nat

/-- The state threaded through the program: the world and the trace so far,
oldest event first. -/
structure St (W : Type) where
  world : W
  trace : List Event
  deriving DecidableEq

/-- Append one event to the trace. -/
def St.emit {W : Type} (s : St W) (e : Event) : St W :=
  ⟨s.world, s.trace ++ [e]⟩

/-- An external call: the world moves to `w`, the call is recorded. -/
def St.call {W : Type} (s : St W) (w : W) (e : Event) : St W :=
  ⟨w, s.trace ++ [e]⟩

/-! ## The program (`impact.go`) -/

/-- Source `cloneRepo`: `git clone --depth 1 --branch ref url dest`. -/
def cloneRepo {W : Type} (env : Env W) (s : St W) (url ref dest : String) :
    St W × Option String :=
  let r := env.gitClone s.world url ref dest
  (s.call r.1 (.gitClone url ref dest), r.2)

/-- Source `listModules`. -/
def listModules {W : Type} (env : Env W) (s : St W) (dir : String) :
    St W × Except String (List String) :=
  let r := env.goList s.world dir
  (s.call r.1 (.goList dir), r.2)

/-- Source `runTests`. -/
def runTests {W : Type} (env : Env W) (s : St W) (dir : String) : St W × TestResult :=
  let r := env.goTest s.world dir
  let res : TestResult := ⟨r.2.1, r.2.2⟩
  let s1 := s.call r.1 (.goTest dir)
  let s2 := s1.emit (.println (if res.Passed then "✔ PASS" else "✘ FAIL"))
  (s2.emit (.printDuration res.Duration), res)

/-- The fixed root name that `applyModuleReplacements` trims from a module
name. -/
def otelRoot : String := "go.opentelemetry.io/otel"

/-- The local directory computed for module `m` in the loop of
`applyModuleReplacements`: `filepath.Join(repoPath, strings.TrimPrefix(m, root))`. -/
def localDir (repoPath m : String) : String :=
  join [repoPath, trimPrefix m otelRoot]

/-- The `for _, m := range modules` loop of `applyModuleReplacements`; the
Boolean is the variable `found`. -/
def replaceModules {W : Type} (env : Env W) (dir repoPath modulePrefix : String) :
    List String → St W → Bool → St W × Except String Bool
  | [], s, found => (s, .ok found)
  | m :: ms, s, found =>
    if hasPrefix m modulePrefix then
      let s1 := s.emit (.stat (join [localDir repoPath m, "go.mod"]))
      if env.stat s.world (join [localDir repoPath m, "go.mod"]) then
        let s2 := s1.emit (.println ("  replace " ++ m ++ " => " ++ localDir repoPath m))
        let r := env.goModEdit s2.world dir (.replace m (localDir repoPath m))
        let s3 := s2.call r.1 (.goModEdit dir (.replace m (localDir repoPath m)))
        match r.2 with
        | some e => (s3, .error ("replace failed for " ++ m ++ ": " ++ e))
        | none => replaceModules env dir repoPath modulePrefix ms s3 true
      else replaceModules env dir repoPath modulePrefix ms s1 found
    else replaceModules env dir repoPath modulePrefix ms s found

/-- The line printed when `found` is still false after the loop. -/
def warningLine (modulePrefix : String) : String :=
  "  WARNING: no modules matched prefix: " ++ modulePrefix

/-- The end of `applyModuleReplacements`, after the loop: the warning when
nothing was found, then the second `go mod tidy`. -/
def finishReplacements {W : Type} (env : Env W) (dir modulePrefix : String)
    (s : St W) (found : Bool) : St W × Option String :=
  let s1 := if !found then s.emit (.println (warningLine modulePrefix)) else s
  let r := env.goModTidy s1.world dir
  let s2 := s1.call r.1 (.goModTidy dir)
  match r.2 with
  | some e => (s2, some ("go mod tidy failed: " ++ e))
  | none => (s2, none)

/-- Source `applyModuleReplacements`. -/
def applyModuleReplacements {W : Type} (env : Env W) (s : St W)
    (dir repoPath modulePrefix : String) : St W × Option String :=
  let s0 := s.emit (.println ("Applying replacements for prefix: " ++ modulePrefix))
  let d := env.goModEdit s0.world dir (.dropreplace "all")
  let s1 := s0.call d.1 (.goModEdit dir (.dropreplace "all"))
  match d.2 with
  | some e => (s1, some ("failed to drop replaces: " ++ e))
  | none =>
    let t := env.goModTidy s1.world dir
    let s2 := s1.call t.1 (.goModTidy dir)
    match t.2 with
    | some e => (s2, some ("go mod tidy failed: " ++ e))
    | none =>
      match listModules env s2 dir with
      | (s3, .error e) => (s3, some e)
      | (s3, .ok modules) =>
        match replaceModules env dir repoPath modulePrefix modules s3 false with
        | (s4, .error e) => (s4, some e)
        | (s4, .ok found) => finishReplacements env dir modulePrefix s4 found

/-- The summary printed at the end of `runForDependent`. -/
def summary (baseline releasedRes modifiedRes : TestResult) : List Event :=
  [ .println "\nSummary:",
    .println ("Baseline : " ++ passFail baseline),
    .println ("Released : " ++ passFail releasedRes),
    .println ("Modified : " ++ passFail modifiedRes),
    .println ("Outcome  : " ++ classify releasedRes.Passed modifiedRes.Passed) ]

/-- The checkout directory of a dependent in `runForDependent`:
`filepath.Join(workspace, "dependent-repo")`. -/
def depRepoPath (workspace : String) : String :=
  join [workspace, "dependent-repo"]

/-- Source `runForDependent`. -/
def runForDependent {W : Type} (env : Env W) (s : St W) (workspace : String)
    (dep : DependentConfig) (released modified modulePrefix : String) :
    St W × Option String :=
  match cloneRepo env s dep.RepoURL dep.Ref (depRepoPath workspace) with
  | (s1, some e) => (s1, some e)
  | (s1, none) =>
    let modulePath := join [depRepoPath workspace, dep.ModulePath]
    let b := runTests env (s1.emit (.println "\n--- Baseline ---")) modulePath
    match applyModuleReplacements env (b.1.emit (.println "\n--- Released ---"))
        modulePath released modulePrefix with
    | (s2, some e) => (s2, some e)
    | (s2, none) =>
      let r := runTests env s2 modulePath
      match applyModuleReplacements env (r.1.emit (.println "\n--- Modified ---"))
          modulePath modified modulePrefix with
      | (s3, some e) => (s3, some e)
      | (s3, none) =>
        let m := runTests env s3 modulePath
        (⟨m.1.world, m.1.trace ++ summary b.2 r.2 m.2⟩, none)

/-- The header printed for a dependent in the loop of `RunImpact`. -/
def depHeader (dep : DependentConfig) : List Event :=
  [ .println "\n================================================",
    .println ("Dependent: " ++ dep.RepoURL),
    .println ("Module   : " ++ dep.ModulePath),
    .println "================================================" ]

/-- The `for _, dep := range cfg.Dependents` loop of `RunImpact`. -/
def runDependents {W : Type} (env : Env W) (workspace released modified modulePrefix : String) :
    List DependentConfig → St W → St W × Option String
  | [], s => (s, none)
  | dep :: deps, s =>
    match runForDependent env ⟨s.world, s.trace ++ depHeader dep⟩ workspace dep
        released modified modulePrefix with
    | (s1, some e) => (s1, some e)
    | (s1, none) => runDependents env workspace released modified modulePrefix deps s1

/-- Source `RunImpact`, started in world `w`.  The deferred
`os.RemoveAll(workspace)` runs on every return after the workspace was made. -/
def RunImpact {W : Type} (env : Env W) (w : W) (cfg : Config) : St W × Option String :=
  match env.mkdirTemp w with
  | (w1, .error e) => (⟨w1, [.mkdirTemp]⟩, some e)
  | (w1, .ok workspace) =>
    let s0 : St W := ⟨w1, [.mkdirTemp, .println ("Workspace: " ++ workspace)]⟩
    let releasedPath := join [workspace, "released"]
    let fin (r : St W × Option String) : St W × Option String :=
      (r.1.call (env.removeAll r.1.world workspace) (.removeAll workspace), r.2)
    match cloneRepo env s0 cfg.Target.RepoURL cfg.Target.ReleasedRef releasedPath with
    | (s1, some e) => fin (s1, some e)
    | (s1, none) =>
      fin (runDependents env workspace releasedPath cfg.Target.ModifiedLocalPath
        cfg.Target.ModulePrefix cfg.Dependents s1)

/-! ## A model of the external tools

The world of this model is the set of directories populated by `git clone` and
the manifest of the module directory: the `replace` directives that the
`go mod edit` calls rewrite and the requirements that `go mod tidy` rewrites.
The behaviour that the program cannot influence (how the module graph is
resolved from a manifest, which `go.mod` files exist, which commands fail,
which directives a `-dropreplace` flag selects) is a parameter, `Tool`. -/

/-- A `replace old [v] => new [v]` directive of a `go.mod`. -/
structure Replace where
  oldPath : String
  oldVersion : String
  newPath : String
  newVersion : String
  deriving DecidableEq, Repr

/-- The directive written by `go mod edit -replace=old=new` with no versions. -/
def Replace.unversioned (old new : String) : Replace := ⟨old, "", new, ""⟩

/-- The loop of `modfile.AddReplace(old, "", new, "")`: the first directive for
`old` is rewritten to the new target, every other directive for `old` is
removed, and when there was none (`need` still true at the end) the directive
is appended. -/
def addReplaceAux (old new : String) : Bool → List Replace → List Replace
  | need, [] => if need then [Replace.unversioned old new] else []
  | need, r :: rs =>
    if r.oldPath = old then
      if need then Replace.unversioned old new :: addReplaceAux old new false rs
      else addReplaceAux old new false rs
    else r :: addReplaceAux old new need rs

/-- Effect of `go mod edit -replace=old=new` on the directives. -/
def addReplace (rs : List Replace) (old new : String) : List Replace :=
  addReplaceAux old new true rs

/-- The directives that `go mod edit -dropreplace=old` selects, as the go
command documents the flag: "drops a replacement of the given module path and
version pair; if the @v is omitted, a replacement without a version on the
left side is dropped".  There is no keyword: `all` is read as a module path. -/
def goDrops (old : String) (r : Replace) : Bool :=
  r.oldPath = old ∧ r.oldVersion = ""

/-- World of the tool model: the populated directories, and the `replace`
directives and the requirements of the manifest. -/
structure World where
  dirs : List String
  replaces : List Replace
  requires : List String
  deriving DecidableEq, Repr

/-- What the program cannot influence.  `resolve` is the module list that
`go list -m all` prints for a manifest with the given directives and
requirements; `tidy` is the requirements that `go mod tidy` writes for it. -/
structure Tool where
  tmp : String
  resolve : List Replace → List String → List String
  tidy : List Replace → List String → List String
  goMods : List String
  drops : String → Replace → Bool
  editFails : EditFlag → Bool
  tidyFails : List Replace → Bool
  testPasses : List Replace → Bool

/-- The environment of the tool model.  `git clone` refuses a destination that
an earlier clone populated ("destination path already exists and is not an
empty directory", exit status 128); `go mod edit` rewrites the directives;
`go mod tidy` rewrites the requirements for the directives in place and leaves
the directives; `go list` prints the module graph resolved from the manifest
as it is; `go test` leaves the manifest; a `go.mod` exists at the paths of
`goMods`. -/
def toolEnv (t : Tool) : Env World where
  mkdirTemp w := (w, .ok t.tmp)
  removeAll w path := ⟨w.dirs.filter (fun d => !hasPrefix d path), w.replaces, w.requires⟩
  gitClone w _ _ dest :=
    if dest ∈ w.dirs then (w, some "exit status 128")
    else (⟨w.dirs ++ [dest], w.replaces, w.requires⟩, none)
  goModEdit w _ flag :=
    if t.editFails flag then (w, some "exit status 1")
    else match flag with
      | .dropreplace old =>
        (⟨w.dirs, w.replaces.filter (fun r => !t.drops old r), w.requires⟩, none)
      | .replace old new => (⟨w.dirs, addReplace w.replaces old new, w.requires⟩, none)
  goModTidy w _ :=
    if t.tidyFails w.replaces then (w, some "exit status 1")
    else (⟨w.dirs, w.replaces, t.tidy w.replaces w.requires⟩, none)
  goList w _ := (w, .ok (t.resolve w.replaces w.requires))
  stat _ path := decide (path ∈ t.goMods)
  goTest w _ := (w, t.testPasses w.replaces, 0)

/-- What `listModules` obtains in a call of `applyModuleReplacements` started
in world `w`: the output of `go list` after the drop and the first tidy. -/
def listingOf {W : Type} (env : Env W) (w : W) (dir : String) : Except String (List String) :=
  (env.goList (env.goModTidy (env.goModEdit w dir (.dropreplace "all")).1 dir).1 dir).2

/-! ## Observations on traces and concrete inputs -/

/-- The destination directories of the `git clone` calls of a trace, in order. -/
def cloneDests : List Event → List String
  | [] => []
  | .gitClone _ _ dest :: es => dest :: cloneDests es
  | _ :: es => cloneDests es

/-- A module graph with the target root module and its `sdk` module. -/
def demoModules : List String :=
  ["example.com/app", "go.opentelemetry.io/otel", "go.opentelemetry.io/otel/sdk"]

/-- A tool behaviour in which every command succeeds: whatever the manifest,
the module graph of the dependent lists the target root module and its `sdk`
module; the released checkout has both, the modified tree has only the root
module. -/
def demoTool : Tool where
  tmp := "/tmp/otel-impact-1"
  resolve := fun _ _ => demoModules
  tidy := fun _ requires => requires
  goMods := ["/tmp/otel-impact-1/released/go.mod", "/tmp/otel-impact-1/released/sdk/go.mod",
    "/home/u/otel/go.mod"]
  drops := goDrops
  editFails := fun _ => false
  tidyFails := fun _ => false
  testPasses := fun _ => true

/-- Target of the concrete configurations. -/
def demoTarget : TargetConfig :=
  ⟨"https://example.com/otel.git", "go.opentelemetry.io/otel", "v1.30.0", "/home/u/otel"⟩

/-- A configuration with two dependents. -/
def twoDependents : Config where
  Target := demoTarget
  Dependents := [⟨"https://example.com/a.git", ".", "main"⟩, ⟨"https://example.com/b.git", ".", "main"⟩]

/-- The tool behaviour of `demoTool`, except that every `go mod tidy` fails. -/
def brokenTidy : Tool :=
  { demoTool with tidyFails := fun _ => true }

/-- A tool behaviour in which the module graph depends on the manifest: the
modified tree of the target root module imports the target's `trace` module,
so once the root module is redirected to the modified tree, `go mod tidy`
adds `trace` to the requirements and `go list` prints it.  Both modules have a
`go.mod` in the modified tree; every command succeeds. -/
def graphTool : Tool where
  tmp := "/tmp/otel-impact-1"
  resolve := fun _ requires => ["example.com/app", "go.opentelemetry.io/otel"] ++ requires
  tidy := fun rs requires =>
    if Replace.unversioned "go.opentelemetry.io/otel" "/home/u/otel" ∈ rs ∧
        "go.opentelemetry.io/otel/trace" ∉ requires then
      requires ++ ["go.opentelemetry.io/otel/trace"]
    else requires
  goMods := ["/home/u/otel/go.mod", "/home/u/otel/trace/go.mod"]
  drops := goDrops
  editFails := fun _ => false
  tidyFails := fun _ => false
  testPasses := fun _ => true

/-! ## Theorems -/

/-- C1: `classify` is a total function of its two Boolean arguments with the
table UNCHANGED / REGRESSION / IMPROVEMENT / UNCHANGED-FAIL, and every result
is one of these four labels. -/
theorem classify_table :
    classify true true = "UNCHANGED" ∧ classify true false = "REGRESSION" ∧
    classify false true = "IMPROVEMENT" ∧ classify false false = "UNCHANGED-FAIL" ∧
    ∀ released modified : Bool, classify released modified ∈
      ["UNCHANGED", "REGRESSION", "IMPROVEMENT", "UNCHANGED-FAIL"] := by
  refine ⟨by decide, by decide, by decide, by decide, ?_⟩
  intro released modified
  cases released <;> cases modified <;> decide

/-- C2 (fails on the code): with two dependents, `runForDependent` passes the
same destination `workspace/dependent-repo` to `cloneRepo` for both, so the
second clone goes into the directory the first one populated and the run ends
with the error of that clone (`runForDependent_clone_dest` gives the
destination for every environment and dependent). -/
theorem dependents_share_checkout_dir :
    cloneDests (RunImpact (toolEnv demoTool) ⟨[], [], []⟩ twoDependents).1.trace =
      ["/tmp/otel-impact-1/released", "/tmp/otel-impact-1/dependent-repo",
       "/tmp/otel-impact-1/dependent-repo"] ∧
    (RunImpact (toolEnv demoTool) ⟨[], [], []⟩ twoDependents).2 = some "exit status 128" := by
  constructor <;> decide

/-- When the dependents of a first segment all complete, the loop continues
with the rest from the state they leave. -/
theorem runDependents_append {W : Type} (env : Env W)
    (workspace released modified modulePrefix : String)
    (pre rest : List DependentConfig) (s s1 : St W)
    (h : runDependents env workspace released modified modulePrefix pre s = (s1, none)) :
    runDependents env workspace released modified modulePrefix (pre ++ rest) s =
      runDependents env workspace released modified modulePrefix rest s1 := by
  induction pre generalizing s with
  | nil =>
    simp only [runDependents, Prod.mk.injEq, and_true] at h
    simp [h]
  | cons d ds ih =>
    simp only [runDependents, List.cons_append] at h ⊢
    cases hr : runForDependent env ⟨s.world, s.trace ++ depHeader d⟩ workspace d
      released modified modulePrefix with
    | mk s2 err =>
      cases err with
      | some e => simp [hr] at h
      | none =>
        simp only [hr] at h ⊢
        exact ih s2 h

/-- C3: fail-fast.  When the substitution of the RELEASED or of the MODIFIED
phase of the dependent at position `pre.length` returns an error `e` in state
`sF`, then `runForDependent` returns `e` in that very state (no further test
phase, no summary), the loop returns `e` in that state whatever dependents
follow, and `RunImpact` returns `e` after the deferred cleanup alone. -/
theorem substitution_failure_is_fatal {W : Type} (env : Env W) (w w1 : W) (cfg : Config)
    (pre post : List DependentConfig) (dep : DependentConfig)
    (workspace e : String) (s1 sPre sC sF : St W)
    (hcfg : cfg.Dependents = pre ++ dep :: post)
    (hmk : env.mkdirTemp w = (w1, .ok workspace))
    (hrel : cloneRepo env ⟨w1, [.mkdirTemp, .println ("Workspace: " ++ workspace)]⟩
      cfg.Target.RepoURL cfg.Target.ReleasedRef (join [workspace, "released"]) = (s1, none))
    (hpre : runDependents env workspace (join [workspace, "released"])
      cfg.Target.ModifiedLocalPath cfg.Target.ModulePrefix pre s1 = (sPre, none))
    (hclone : cloneRepo env ⟨sPre.world, sPre.trace ++ depHeader dep⟩ dep.RepoURL dep.Ref
      (depRepoPath workspace) = (sC, none))
    (hfail :
      applyModuleReplacements env
        ((runTests env (sC.emit (.println "\n--- Baseline ---"))
          (join [depRepoPath workspace, dep.ModulePath])).1.emit (.println "\n--- Released ---"))
        (join [depRepoPath workspace, dep.ModulePath]) (join [workspace, "released"])
        cfg.Target.ModulePrefix = (sF, some e) ∨
      ∃ sR : St W,
        applyModuleReplacements env
          ((runTests env (sC.emit (.println "\n--- Baseline ---"))
            (join [depRepoPath workspace, dep.ModulePath])).1.emit (.println "\n--- Released ---"))
          (join [depRepoPath workspace, dep.ModulePath]) (join [workspace, "released"])
          cfg.Target.ModulePrefix = (sR, none) ∧
        applyModuleReplacements env
          ((runTests env sR (join [depRepoPath workspace, dep.ModulePath])).1.emit
            (.println "\n--- Modified ---"))
          (join [depRepoPath workspace, dep.ModulePath]) cfg.Target.ModifiedLocalPath
          cfg.Target.ModulePrefix = (sF, some e)) :
    runForDependent env ⟨sPre.world, sPre.trace ++ depHeader dep⟩ workspace dep
        (join [workspace, "released"]) cfg.Target.ModifiedLocalPath cfg.Target.ModulePrefix =
      (sF, some e) ∧
    runDependents env workspace (join [workspace, "released"]) cfg.Target.ModifiedLocalPath
        cfg.Target.ModulePrefix (pre ++ dep :: post) s1 = (sF, some e) ∧
    RunImpact env w cfg =
      (sF.call (env.removeAll sF.world workspace) (.removeAll workspace), some e) := by
  have hdep : runForDependent env ⟨sPre.world, sPre.trace ++ depHeader dep⟩ workspace dep
      (join [workspace, "released"]) cfg.Target.ModifiedLocalPath cfg.Target.ModulePrefix =
      (sF, some e) := by
    rcases hfail with h | ⟨sR, hR, hM⟩
    · simp only [runForDependent, hclone, h]
    · simp only [runForDependent, hclone, hR, hM]
  have hloop : runDependents env workspace (join [workspace, "released"])
      cfg.Target.ModifiedLocalPath cfg.Target.ModulePrefix (pre ++ dep :: post) s1 =
      (sF, some e) := by
    rw [runDependents_append env _ _ _ _ pre (dep :: post) s1 sPre hpre]
    simp only [runDependents, hdep]
  refine ⟨hdep, hloop, ?_⟩
  simp only [RunImpact, hmk, hrel, hcfg, hloop]

/-- Witness of C3: with a `go mod tidy` that fails, the RELEASED substitution of
the first of two dependents fails; the run returns that error and the second
dependent is never cloned. -/
theorem substitution_failure_is_fatal_witness :
    (RunImpact (toolEnv brokenTidy) ⟨[], [], []⟩ twoDependents).2 =
      some "go mod tidy failed: exit status 1" :=
  congrArg Prod.snd (substitution_failure_is_fatal (toolEnv brokenTidy) ⟨[], [], []⟩ ⟨[], [], []⟩ twoDependents
    [] [⟨"https://example.com/b.git", ".", "main"⟩] ⟨"https://example.com/a.git", ".", "main"⟩
    "/tmp/otel-impact-1" "go mod tidy failed: exit status 1"
    ⟨⟨["/tmp/otel-impact-1/released"], [], []⟩,
      [.mkdirTemp, .println "Workspace: /tmp/otel-impact-1",
       .gitClone "https://example.com/otel.git" "v1.30.0" "/tmp/otel-impact-1/released"]⟩
    ⟨⟨["/tmp/otel-impact-1/released"], [], []⟩,
      [.mkdirTemp, .println "Workspace: /tmp/otel-impact-1",
       .gitClone "https://example.com/otel.git" "v1.30.0" "/tmp/otel-impact-1/released"]⟩
    (cloneRepo (toolEnv brokenTidy)
      ⟨⟨["/tmp/otel-impact-1/released"], [], []⟩,
        [.mkdirTemp, .println "Workspace: /tmp/otel-impact-1",
         .gitClone "https://example.com/otel.git" "v1.30.0" "/tmp/otel-impact-1/released"] ++
        depHeader ⟨"https://example.com/a.git", ".", "main"⟩⟩
      "https://example.com/a.git" "main" "/tmp/otel-impact-1/dependent-repo").1
    (applyModuleReplacements (toolEnv brokenTidy)
      ((runTests (toolEnv brokenTidy)
        ((cloneRepo (toolEnv brokenTidy)
          ⟨⟨["/tmp/otel-impact-1/released"], [], []⟩,
            [.mkdirTemp, .println "Workspace: /tmp/otel-impact-1",
             .gitClone "https://example.com/otel.git" "v1.30.0" "/tmp/otel-impact-1/released"] ++
            depHeader ⟨"https://example.com/a.git", ".", "main"⟩⟩
          "https://example.com/a.git" "main" "/tmp/otel-impact-1/dependent-repo").1.emit
          (.println "\n--- Baseline ---"))
        "/tmp/otel-impact-1/dependent-repo").1.emit (.println "\n--- Released ---"))
      "/tmp/otel-impact-1/dependent-repo" "/tmp/otel-impact-1/released"
      "go.opentelemetry.io/otel").1
    (by decide) rfl (by decide) (by decide) (by decide)
    (Or.inl (by decide))).2.2

/-- C8: the baseline is informational only.  In a run of `runForDependent`
whose clone and two substitutions succeed, the last line printed is the
outcome `classify releasedRes.Passed modifiedRes.Passed` of the results of the
second and third test runs; the outcome line is the same for every baseline
result; (pass, pass, pass) gives UNCHANGED, (pass, pass, fail) REGRESSION and
(fail, fail, pass) IMPROVEMENT. -/
theorem baseline_is_informational {W : Type} (env : Env W) (s sC sR sM : St W)
    (workspace released modified modulePrefix : String) (dep : DependentConfig)
    (hclone : cloneRepo env s dep.RepoURL dep.Ref (depRepoPath workspace) = (sC, none))
    (hR : applyModuleReplacements env
      ((runTests env (sC.emit (.println "\n--- Baseline ---"))
        (join [depRepoPath workspace, dep.ModulePath])).1.emit (.println "\n--- Released ---"))
      (join [depRepoPath workspace, dep.ModulePath]) released modulePrefix = (sR, none))
    (hM : applyModuleReplacements env
      ((runTests env sR (join [depRepoPath workspace, dep.ModulePath])).1.emit
        (.println "\n--- Modified ---"))
      (join [depRepoPath workspace, dep.ModulePath]) modified modulePrefix = (sM, none)) :
    (runForDependent env s workspace dep released modified modulePrefix).2 = none ∧
    (runForDependent env s workspace dep released modified modulePrefix).1.trace =
      (runTests env sM (join [depRepoPath workspace, dep.ModulePath])).1.trace ++
        summary
          (runTests env (sC.emit (.println "\n--- Baseline ---"))
            (join [depRepoPath workspace, dep.ModulePath])).2
          (runTests env sR (join [depRepoPath workspace, dep.ModulePath])).2
          (runTests env sM (join [depRepoPath workspace, dep.ModulePath])).2 ∧
    (runForDependent env s workspace dep released modified modulePrefix).1.trace.getLast? =
      some (.println ("Outcome  : " ++
        classify (runTests env sR (join [depRepoPath workspace, dep.ModulePath])).2.Passed
          (runTests env sM (join [depRepoPath workspace, dep.ModulePath])).2.Passed)) ∧
    (∀ b1 b2 r m : TestResult,
      (summary b1 r m).getLast? = (summary b2 r m).getLast? ∧
      (summary b1 r m).getLast? =
        some (.println ("Outcome  : " ++ classify r.Passed m.Passed))) ∧
    (∀ d1 d2 d3 : Nat,
      (summary ⟨true, d1⟩ ⟨true, d2⟩ ⟨true, d3⟩).getLast? =
        some (.println "Outcome  : UNCHANGED") ∧
      (summary ⟨true, d1⟩ ⟨true, d2⟩ ⟨false, d3⟩).getLast? =
        some (.println "Outcome  : REGRESSION") ∧
      (summary ⟨false, d1⟩ ⟨false, d2⟩ ⟨true, d3⟩).getLast? =
        some (.println "Outcome  : IMPROVEMENT")) := by
  have hrun : runForDependent env s workspace dep released modified modulePrefix =
      (⟨(runTests env sM (join [depRepoPath workspace, dep.ModulePath])).1.world,
        (runTests env sM (join [depRepoPath workspace, dep.ModulePath])).1.trace ++
          summary
            (runTests env (sC.emit (.println "\n--- Baseline ---"))
              (join [depRepoPath workspace, dep.ModulePath])).2
            (runTests env sR (join [depRepoPath workspace, dep.ModulePath])).2
            (runTests env sM (join [depRepoPath workspace, dep.ModulePath])).2⟩, none) := by
    simp only [runForDependent, hclone, hR, hM]
  refine ⟨by rw [hrun], by rw [hrun], ?_, ?_, ?_⟩
  · rw [hrun]
    simp [summary]
  · intro b1 b2 r m
    simp [summary]
  · intro d1 d2 d3
    refine ⟨?_, ?_, ?_⟩ <;> simp [summary, classify]

/-- Witness of C8: the first dependent of the concrete run, all commands
succeeding and all tests passing, is reported as UNCHANGED. -/
theorem baseline_is_informational_witness :
    (runForDependent (toolEnv demoTool) ⟨⟨[], [], []⟩, []⟩ "/tmp/otel-impact-1"
      ⟨"https://example.com/a.git", ".", "main"⟩ "/tmp/otel-impact-1/released" "/home/u/otel"
      "go.opentelemetry.io/otel").1.trace.getLast? =
      some (.println ("Outcome  : " ++ classify true true)) :=
  (baseline_is_informational (toolEnv demoTool) ⟨⟨[], [], []⟩, []⟩
    (cloneRepo (toolEnv demoTool) ⟨⟨[], [], []⟩, []⟩ "https://example.com/a.git" "main"
      "/tmp/otel-impact-1/dependent-repo").1
    (applyModuleReplacements (toolEnv demoTool)
      ((runTests (toolEnv demoTool)
        ((cloneRepo (toolEnv demoTool) ⟨⟨[], [], []⟩, []⟩ "https://example.com/a.git" "main"
          "/tmp/otel-impact-1/dependent-repo").1.emit (.println "\n--- Baseline ---"))
        "/tmp/otel-impact-1/dependent-repo").1.emit (.println "\n--- Released ---"))
      "/tmp/otel-impact-1/dependent-repo" "/tmp/otel-impact-1/released"
      "go.opentelemetry.io/otel").1
    (applyModuleReplacements (toolEnv demoTool)
      ((runTests (toolEnv demoTool)
        (applyModuleReplacements (toolEnv demoTool)
          ((runTests (toolEnv demoTool)
            ((cloneRepo (toolEnv demoTool) ⟨⟨[], [], []⟩, []⟩ "https://example.com/a.git" "main"
              "/tmp/otel-impact-1/dependent-repo").1.emit (.println "\n--- Baseline ---"))
            "/tmp/otel-impact-1/dependent-repo").1.emit (.println "\n--- Released ---"))
          "/tmp/otel-impact-1/dependent-repo" "/tmp/otel-impact-1/released"
          "go.opentelemetry.io/otel").1
        "/tmp/otel-impact-1/dependent-repo").1.emit (.println "\n--- Modified ---"))
      "/tmp/otel-impact-1/dependent-repo" "/home/u/otel" "go.opentelemetry.io/otel").1
    "/tmp/otel-impact-1" "/tmp/otel-impact-1/released" "/home/u/otel"
    "go.opentelemetry.io/otel" ⟨"https://example.com/a.git", ".", "main"⟩
    (by decide) (by decide) (by decide)).2.2.1

/-- The loop skips a list in which no module name starts with the prefix:
no event, `found` unchanged. -/
theorem replaceModules_no_match {W : Type} (env : Env W) (dir repoPath modulePrefix : String)
    (ms : List String) (s : St W) (found : Bool)
    (h : ∀ m ∈ ms, hasPrefix m modulePrefix = false) :
    replaceModules env dir repoPath modulePrefix ms s found = (s, .ok found) := by
  induction ms generalizing s found with
  | nil => rfl
  | cons m ms ih =>
    have hm : hasPrefix m modulePrefix = false := h m (List.mem_cons_self m ms)
    simp only [replaceModules, hm, Bool.false_eq_true, if_false]
    exact ih s found (fun x hx => h x (List.mem_cons_of_mem m hx))

/-- What the loop of `applyModuleReplacements` adds to the trace.  Every new
event belongs to a listed module whose name starts with the prefix: the probe
of its `go.mod`, or, when a probe of that path succeeded, the line announcing
the directive and the `go mod edit -replace` for that module and its local
directory.  When the loop ends without error, `found` is true exactly when it
was true before or an edit was issued; and the loop ends without error when
every edit succeeds. -/
theorem replaceModules_trace {W : Type} (env : Env W) (dir repoPath modulePrefix : String)
    (ms : List String) (s : St W) (found : Bool) :
    ∃ added : List Event,
      (replaceModules env dir repoPath modulePrefix ms s found).1.trace = s.trace ++ added ∧
      (∀ e ∈ added, ∃ m ∈ ms, hasPrefix m modulePrefix = true ∧
        (e = .stat (join [localDir repoPath m, "go.mod"]) ∨
          ((∃ w, env.stat w (join [localDir repoPath m, "go.mod"]) = true) ∧
            (e = .println ("  replace " ++ m ++ " => " ++ localDir repoPath m) ∨
             e = .goModEdit dir (.replace m (localDir repoPath m)))))) ∧
      (∀ f, (replaceModules env dir repoPath modulePrefix ms s found).2 = .ok f →
        (f = true ↔ (found = true ∨
          ∃ m, Event.goModEdit dir (.replace m (localDir repoPath m)) ∈ added))) ∧
      ((∀ w f, (env.goModEdit w dir f).2 = none) →
        ∃ f, (replaceModules env dir repoPath modulePrefix ms s found).2 = .ok f) := by
  induction ms generalizing s found with
  | nil =>
    refine ⟨[], by simp [replaceModules], by simp, ?_, ?_⟩
    · intro f hf
      simp only [replaceModules, Except.ok.injEq] at hf
      simp [hf]
    · intro _
      exact ⟨found, rfl⟩
  | cons m ms ih =>
    by_cases hp : hasPrefix m modulePrefix = true
    · by_cases hs : env.stat s.world (join [localDir repoPath m, "go.mod"]) = true
      · cases hr : (env.goModEdit s.world dir (.replace m (localDir repoPath m))).2 with
        | some e =>
          have hstep : replaceModules env dir repoPath modulePrefix (m :: ms) s found =
              (⟨(env.goModEdit s.world dir (.replace m (localDir repoPath m))).1,
                s.trace ++ [.stat (join [localDir repoPath m, "go.mod"]),
                  .println ("  replace " ++ m ++ " => " ++ localDir repoPath m),
                  .goModEdit dir (.replace m (localDir repoPath m))]⟩,
                .error ("replace failed for " ++ m ++ ": " ++ e)) := by
            simp [replaceModules, hp, hs, hr, St.emit, St.call]
          refine ⟨[.stat (join [localDir repoPath m, "go.mod"]),
            .println ("  replace " ++ m ++ " => " ++ localDir repoPath m),
            .goModEdit dir (.replace m (localDir repoPath m))], ?_, ?_, ?_, ?_⟩
          · rw [hstep]
          · intro e1 he1
            refine ⟨m, List.mem_cons_self m ms, hp, ?_⟩
            simp only [List.mem_cons, List.mem_singleton, List.not_mem_nil, or_false] at he1
            rcases he1 with h | h | h
            · exact Or.inl h
            · exact Or.inr ⟨⟨s.world, hs⟩, Or.inl h⟩
            · exact Or.inr ⟨⟨s.world, hs⟩, Or.inr h⟩
          · intro f hf
            rw [hstep] at hf
            exact absurd hf (by simp)
          · intro hedit
            have := hedit s.world (.replace m (localDir repoPath m))
            rw [hr] at this
            exact absurd this (by simp)
        | none =>
          have hstep : replaceModules env dir repoPath modulePrefix (m :: ms) s found =
              replaceModules env dir repoPath modulePrefix ms
                ⟨(env.goModEdit s.world dir (.replace m (localDir repoPath m))).1,
                  s.trace ++ [.stat (join [localDir repoPath m, "go.mod"]),
                    .println ("  replace " ++ m ++ " => " ++ localDir repoPath m),
                    .goModEdit dir (.replace m (localDir repoPath m))]⟩ true := by
            simp [replaceModules, hp, hs, hr, St.emit, St.call]
          obtain ⟨added, htr, hev, hfound, hok⟩ := ih
            ⟨(env.goModEdit s.world dir (.replace m (localDir repoPath m))).1,
              s.trace ++ [.stat (join [localDir repoPath m, "go.mod"]),
                .println ("  replace " ++ m ++ " => " ++ localDir repoPath m),
                .goModEdit dir (.replace m (localDir repoPath m))]⟩ true
          refine ⟨[.stat (join [localDir repoPath m, "go.mod"]),
            .println ("  replace " ++ m ++ " => " ++ localDir repoPath m),
            .goModEdit dir (.replace m (localDir repoPath m))] ++ added, ?_, ?_, ?_, ?_⟩
          · rw [hstep, htr]
            simp
          · intro e1 he1
            rcases List.mem_append.mp he1 with h | h
            · refine ⟨m, List.mem_cons_self m ms, hp, ?_⟩
              simp only [List.mem_cons, List.mem_singleton, List.not_mem_nil, or_false] at h
              rcases h with h | h | h
              · exact Or.inl h
              · exact Or.inr ⟨⟨s.world, hs⟩, Or.inl h⟩
              · exact Or.inr ⟨⟨s.world, hs⟩, Or.inr h⟩
            · obtain ⟨m1, hm1, rest⟩ := hev e1 h
              exact ⟨m1, List.mem_cons_of_mem m hm1, rest⟩
          · intro f hf
            rw [hstep] at hf
            have h1 := hfound f hf
            constructor
            · intro _
              exact Or.inr ⟨m, by simp⟩
            · intro _
              exact h1.mpr (Or.inl rfl)
          · intro hedit
            rw [hstep]
            exact hok hedit
      · have hstep : replaceModules env dir repoPath modulePrefix (m :: ms) s found =
            replaceModules env dir repoPath modulePrefix ms
              ⟨s.world, s.trace ++ [.stat (join [localDir repoPath m, "go.mod"])]⟩ found := by
          simp [replaceModules, hp, hs, St.emit]
        obtain ⟨added, htr, hev, hfound, hok⟩ := ih
          ⟨s.world, s.trace ++ [.stat (join [localDir repoPath m, "go.mod"])]⟩ found
        refine ⟨.stat (join [localDir repoPath m, "go.mod"]) :: added, ?_, ?_, ?_, ?_⟩
        · rw [hstep, htr]
          simp
        · intro e1 he1
          rcases List.mem_cons.mp he1 with h | h
          · exact ⟨m, List.mem_cons_self m ms, hp, Or.inl h⟩
          · obtain ⟨m1, hm1, rest⟩ := hev e1 h
            exact ⟨m1, List.mem_cons_of_mem m hm1, rest⟩
        · intro f hf
          rw [hstep] at hf
          rw [hfound f hf]
          simp
        · intro hedit
          rw [hstep]
          exact hok hedit
    · have hstep : replaceModules env dir repoPath modulePrefix (m :: ms) s found =
          replaceModules env dir repoPath modulePrefix ms s found := by
        simp [replaceModules, hp]
      obtain ⟨added, htr, hev, hfound, hok⟩ := ih s found
      refine ⟨added, by rw [hstep, htr], ?_, ?_, ?_⟩
      · intro e1 he1
        obtain ⟨m1, hm1, rest⟩ := hev e1 he1
        exact ⟨m1, List.mem_cons_of_mem m hm1, rest⟩
      · intro f hf
        rw [hstep] at hf
        exact hfound f hf
      · intro hedit
        rw [hstep]
        exact hok hedit

/-- The shape of a call of `applyModuleReplacements` in which the drop, the
tidy, the list and every edit succeed: the call succeeds, and its trace is the
announcement, the drop, the first tidy and the list, then what the loop adds,
then the warning when `found` is false, then the second tidy. -/
theorem applyModuleReplacements_shape {W : Type} (env : Env W) (s : St W)
    (dir repoPath modulePrefix : String) (modules : List String)
    (hedit : ∀ w f, (env.goModEdit w dir f).2 = none)
    (htidy : ∀ w, (env.goModTidy w dir).2 = none)
    (hlist : ∀ w, (env.goList w dir).2 = .ok modules) :
    ∃ (added : List Event) (found : Bool),
      (applyModuleReplacements env s dir repoPath modulePrefix).2 = none ∧
      (applyModuleReplacements env s dir repoPath modulePrefix).1.trace =
        s.trace ++
          [.println ("Applying replacements for prefix: " ++ modulePrefix),
            .goModEdit dir (.dropreplace "all"), .goModTidy dir, .goList dir] ++
          added ++ (if found then [] else [.println (warningLine modulePrefix)]) ++
          [.goModTidy dir] ∧
      (∀ e ∈ added, ∃ m ∈ modules, hasPrefix m modulePrefix = true ∧
        (e = .stat (join [localDir repoPath m, "go.mod"]) ∨
          ((∃ w, env.stat w (join [localDir repoPath m, "go.mod"]) = true) ∧
            (e = .println ("  replace " ++ m ++ " => " ++ localDir repoPath m) ∨
             e = .goModEdit dir (.replace m (localDir repoPath m)))))) ∧
      (found = true ↔
        ∃ m, Event.goModEdit dir (.replace m (localDir repoPath m)) ∈ added) := by
  obtain ⟨added, htr, hev, hfound, hok⟩ := replaceModules_trace env dir repoPath modulePrefix
    modules
    ⟨(env.goList (env.goModTidy (env.goModEdit s.world dir (.dropreplace "all")).1 dir).1 dir).1,
      s.trace ++ [.println ("Applying replacements for prefix: " ++ modulePrefix),
        .goModEdit dir (.dropreplace "all"), .goModTidy dir, .goList dir]⟩ false
  obtain ⟨found, hres⟩ := hok hedit
  have hdrop := hedit s.world (.dropreplace "all")
  have ht1 := htidy (env.goModEdit s.world dir (.dropreplace "all")).1
  have hl := hlist (env.goModTidy (env.goModEdit s.world dir (.dropreplace "all")).1 dir).1
  cases hloop : replaceModules env dir repoPath modulePrefix modules
    ⟨(env.goList (env.goModTidy (env.goModEdit s.world dir (.dropreplace "all")).1 dir).1 dir).1,
      s.trace ++ [.println ("Applying replacements for prefix: " ++ modulePrefix),
        .goModEdit dir (.dropreplace "all"), .goModTidy dir, .goList dir]⟩ false with
  | mk s4 r =>
    rw [hloop] at htr hres hfound
    simp only at htr hres
    subst hres
    have hcall : applyModuleReplacements env s dir repoPath modulePrefix =
        finishReplacements env dir modulePrefix s4 found := by
      have hl2 : listModules env
          ⟨(env.goModTidy (env.goModEdit s.world dir (.dropreplace "all")).1 dir).1,
            s.trace ++ [.println ("Applying replacements for prefix: " ++ modulePrefix),
              .goModEdit dir (.dropreplace "all"), .goModTidy dir]⟩ dir =
          (⟨(env.goList
              (env.goModTidy (env.goModEdit s.world dir (.dropreplace "all")).1 dir).1 dir).1,
            s.trace ++ [.println ("Applying replacements for prefix: " ++ modulePrefix),
              .goModEdit dir (.dropreplace "all"), .goModTidy dir, .goList dir]⟩,
            .ok modules) := by
        simp [listModules, St.call, hl]
      simp only [applyModuleReplacements, St.emit, St.call, hdrop, ht1, List.append_assoc,
        List.singleton_append, List.cons_append, List.nil_append]
      simp only [List.append_assoc, List.singleton_append, List.cons_append,
        List.nil_append] at hl2 hloop
      rw [hl2]
      simp only [hloop]
    have ht2 := htidy (if (!found) = true then s4.emit (.println (warningLine modulePrefix))
      else s4).world
    refine ⟨added, found, ?_, ?_, hev, ?_⟩
    · rw [hcall]
      simp only [finishReplacements, ht2]
    · rw [hcall]
      simp only [finishReplacements, ht2, St.call]
      cases found <;> simp [St.emit, htr]
    · have := hfound found rfl
      simpa using this

/-- A call of `applyModuleReplacements` only appends to the trace. -/
theorem applyModuleReplacements_extends {W : Type} (env : Env W) (s : St W)
    (dir repoPath modulePrefix : String) :
    ∃ added : List Event,
      (applyModuleReplacements env s dir repoPath modulePrefix).1.trace = s.trace ++ added := by
  simp only [applyModuleReplacements, listModules, St.emit, St.call]
  split
  · simp only [List.append_assoc]
    exact ⟨_, rfl⟩
  · split
    · simp only [List.append_assoc]
      exact ⟨_, rfl⟩
    · split
      · next h =>
        simp only [Prod.mk.injEq] at h
        obtain ⟨h1, _⟩ := h
        subst h1
        simp only [List.append_assoc]
        exact ⟨_, rfl⟩
      · next s3 modules h =>
        simp only [Prod.mk.injEq] at h
        obtain ⟨h1, _⟩ := h
        subst h1
        obtain ⟨added, htr, _⟩ := replaceModules_trace env dir repoPath modulePrefix modules
          ⟨(env.goList (env.goModTidy (env.goModEdit s.world dir
              (.dropreplace "all")).1 dir).1 dir).1,
            s.trace ++ [.println ("Applying replacements for prefix: " ++ modulePrefix)] ++
              [.goModEdit dir (.dropreplace "all")] ++ [.goModTidy dir] ++ [.goList dir]⟩ false
        split
        · next s4 e h4 =>
          have h5 := congrArg (fun x => x.1.trace) h4
          simp only at h5
          rw [← h5, htr]
          simp only [List.append_assoc]
          exact ⟨_, rfl⟩
        · next s4 found h4 =>
          have h5 := congrArg (fun x => x.1.trace) h4
          simp only at h5
          simp only [finishReplacements, St.emit, St.call]
          cases found
          · split <;>
            · simp only [Bool.not_false, if_true]
              rw [← h5, htr]
              simp only [List.append_assoc]
              exact ⟨_, rfl⟩
          · split <;>
            · simp only [Bool.not_true, Bool.false_eq_true, if_false]
              rw [← h5, htr]
              simp only [List.append_assoc]
              exact ⟨_, rfl⟩

/-- Whatever the dependent, the first thing `runForDependent` does is to clone
it into `workspace/dependent-repo`. -/
theorem runForDependent_clone_dest {W : Type} (env : Env W) (s : St W) (workspace : String)
    (dep : DependentConfig) (released modified modulePrefix : String) :
    ∃ rest : List Event,
      (runForDependent env s workspace dep released modified modulePrefix).1.trace =
        s.trace ++ .gitClone dep.RepoURL dep.Ref (join [workspace, "dependent-repo"]) :: rest := by
  simp only [runForDependent, cloneRepo, St.call, depRepoPath]
  split
  · next s1 e h =>
    simp only [Prod.mk.injEq] at h
    obtain ⟨h1, _⟩ := h
    subst h1
    exact ⟨[], rfl⟩
  · next s1 h =>
    simp only [Prod.mk.injEq] at h
    obtain ⟨h1, _⟩ := h
    subst h1
    obtain ⟨a1, h1⟩ := applyModuleReplacements_extends env
      ((runTests env
        (St.emit ⟨(env.gitClone s.world dep.RepoURL dep.Ref (join [workspace, "dependent-repo"])).1,
          s.trace ++ [.gitClone dep.RepoURL dep.Ref (join [workspace, "dependent-repo"])]⟩
          (.println "\n--- Baseline ---"))
        (join [join [workspace, "dependent-repo"], dep.ModulePath])).1.emit
        (.println "\n--- Released ---"))
      (join [join [workspace, "dependent-repo"], dep.ModulePath]) released modulePrefix
    simp only [runTests, St.emit, St.call, List.append_assoc, List.singleton_append] at h1
    split
    · next s2 e h2 =>
      have h5 := congrArg (fun x => x.1.trace) h2
      simp only [runTests, St.emit, St.call, List.append_assoc, List.singleton_append] at h5
      rw [← h5, h1]
      exact ⟨_, rfl⟩
    · next s2 h2 =>
      have h5 := congrArg (fun x => x.1.trace) h2
      simp only [runTests, St.emit, St.call, List.append_assoc, List.singleton_append] at h5
      rw [h5] at h1
      obtain ⟨a2, h3⟩ := applyModuleReplacements_extends env
        ((runTests env s2 (join [join [workspace, "dependent-repo"], dep.ModulePath])).1.emit
          (.println "\n--- Modified ---"))
        (join [join [workspace, "dependent-repo"], dep.ModulePath]) modified modulePrefix
      simp only [runTests, St.emit, St.call, List.append_assoc, List.singleton_append] at h3
      split
      · next s3 e h4 =>
        have h6 := congrArg (fun x => x.1.trace) h4
        simp only [runTests, St.emit, St.call, List.append_assoc, List.singleton_append] at h6
        rw [← h6, h3, h1]
        simp only [List.append_assoc, List.cons_append]
        exact ⟨_, rfl⟩
      · next s3 h4 =>
        have h6 := congrArg (fun x => x.1.trace) h4
        simp only [runTests, St.emit, St.call, List.append_assoc, List.singleton_append] at h6
        rw [h6] at h3
        simp only [runTests, St.emit, St.call, List.append_assoc, List.singleton_append]
        rw [h3, h1]
        simp only [List.append_assoc, List.cons_append]
        exact ⟨_, rfl⟩

/-- The warning line differs from the line that announces a directive. -/
theorem warningLine_ne_replaceLine (modulePrefix m l : String) :
    ("  replace " ++ m ++ " => " ++ l) ≠ warningLine modulePrefix := by
  intro h
  have h2 := congrArg (fun x => x.data.get? 2) h
  simp [warningLine, String.data_append] at h2

/-- The warning line differs from the line that announces the call. -/
theorem warningLine_ne_applying (modulePrefix q : String) :
    ("Applying replacements for prefix: " ++ q) ≠ warningLine modulePrefix := by
  intro h
  have h2 := congrArg (fun x => x.data.head?) h
  simp [warningLine, String.data_append] at h2

/-- C4: prefix filtering.  When the drop, tidy, list and edit commands succeed
and the list is `modules`, the call succeeds, and every `go mod edit -replace`
it issues is for a listed module whose name starts with `modulePrefix`, in the
module directory, with the computed local directory as target, after a probe
that found a `go.mod` there.  So a module whose name does not start with the
prefix receives no directive, and neither does a module with no `go.mod` at
its computed local path, which does not make the call fail either. -/
theorem prefix_filtering {W : Type} (env : Env W) (s : St W)
    (dir repoPath modulePrefix : String) (modules : List String)
    (hedit : ∀ w f, (env.goModEdit w dir f).2 = none)
    (htidy : ∀ w, (env.goModTidy w dir).2 = none)
    (hlist : ∀ w, (env.goList w dir).2 = .ok modules) :
    (applyModuleReplacements env s dir repoPath modulePrefix).2 = none ∧
    ∃ added : List Event,
      (applyModuleReplacements env s dir repoPath modulePrefix).1.trace = s.trace ++ added ∧
      (∀ d old new, Event.goModEdit d (.replace old new) ∈ added →
        old ∈ modules ∧ hasPrefix old modulePrefix = true ∧ d = dir ∧
        new = localDir repoPath old ∧
        ∃ w, env.stat w (join [localDir repoPath old, "go.mod"]) = true) ∧
      (∀ m, hasPrefix m modulePrefix = false →
        ∀ d new, Event.goModEdit d (.replace m new) ∉ added) ∧
      (∀ m, (∀ w, env.stat w (join [localDir repoPath m, "go.mod"]) = false) →
        ∀ d new, Event.goModEdit d (.replace m new) ∉ added) := by
  obtain ⟨loopEvents, found, hres, htr, hev, _⟩ :=
    applyModuleReplacements_shape env s dir repoPath modulePrefix modules hedit htidy hlist
  have key : ∀ d old new, Event.goModEdit d (.replace old new) ∈
      [Event.println ("Applying replacements for prefix: " ++ modulePrefix),
        .goModEdit dir (.dropreplace "all"), .goModTidy dir, .goList dir] ++
      loopEvents ++ (if found then [] else [.println (warningLine modulePrefix)]) ++
      [.goModTidy dir] →
      old ∈ modules ∧ hasPrefix old modulePrefix = true ∧ d = dir ∧
        new = localDir repoPath old ∧
        ∃ w, env.stat w (join [localDir repoPath old, "go.mod"]) = true := by
    intro d old new hmem
    have hin : Event.goModEdit d (.replace old new) ∈ loopEvents := by
      cases found <;> simpa using hmem
    obtain ⟨m, hm, hp, hcase⟩ := hev _ hin
    rcases hcase with h | ⟨hw, h | h⟩
    · exact absurd h (by simp)
    · exact absurd h (by simp)
    · simp only [Event.goModEdit.injEq, EditFlag.replace.injEq] at h
      obtain ⟨hd, ho, hn⟩ := h
      subst ho
      exact ⟨hm, hp, hd, hn, hw⟩
  refine ⟨hres, _, by rw [htr]; simp only [List.append_assoc], key, ?_, ?_⟩
  · intro m hm d new hmem
    have := (key d m new hmem).2.1
    rw [hm] at this
    exact absurd this (by simp)
  · intro m hm d new hmem
    obtain ⟨w, hw⟩ := (key d m new hmem).2.2.2.2
    rw [hm w] at hw
    exact absurd hw (by simp)

/-- C5: no-match warning.  When the drop, tidy and list commands succeed and no
listed module name starts with `modulePrefix`, the call returns success and
its trace is exactly: the announcement, the drop, the tidy, the list, the
line `  WARNING: no modules matched prefix: <modulePrefix>` and the final
tidy; no `go mod edit -replace` is issued. -/
theorem no_match_warning {W : Type} (env : Env W) (s : St W)
    (dir repoPath modulePrefix : String) (modules : List String)
    (hdrop : ∀ w, (env.goModEdit w dir (.dropreplace "all")).2 = none)
    (htidy : ∀ w, (env.goModTidy w dir).2 = none)
    (hlist : ∀ w, (env.goList w dir).2 = .ok modules)
    (hnone : ∀ m ∈ modules, hasPrefix m modulePrefix = false) :
    (applyModuleReplacements env s dir repoPath modulePrefix).2 = none ∧
    (applyModuleReplacements env s dir repoPath modulePrefix).1.trace =
      s.trace ++
        [.println ("Applying replacements for prefix: " ++ modulePrefix),
          .goModEdit dir (.dropreplace "all"), .goModTidy dir, .goList dir,
          .println ("  WARNING: no modules matched prefix: " ++ modulePrefix),
          .goModTidy dir] := by
  have hd := hdrop s.world
  have ht1 := htidy (env.goModEdit s.world dir (.dropreplace "all")).1
  have hl := hlist (env.goModTidy (env.goModEdit s.world dir (.dropreplace "all")).1 dir).1
  have ht2 := htidy
    (env.goList (env.goModTidy (env.goModEdit s.world dir (.dropreplace "all")).1 dir).1 dir).1
  have hcall : applyModuleReplacements env s dir repoPath modulePrefix =
      (⟨(env.goModTidy (env.goList
          (env.goModTidy (env.goModEdit s.world dir (.dropreplace "all")).1 dir).1 dir).1 dir).1,
        s.trace ++
          [.println ("Applying replacements for prefix: " ++ modulePrefix),
            .goModEdit dir (.dropreplace "all"), .goModTidy dir, .goList dir,
            .println (warningLine modulePrefix), .goModTidy dir]⟩, none) := by
    simp [applyModuleReplacements, listModules, finishReplacements, St.emit, St.call, hd, ht1,
      hl, ht2, replaceModules_no_match env dir repoPath modulePrefix modules _ false hnone]
  rw [hcall]
  exact ⟨rfl, rfl⟩

/-- C10: when the drop, tidy, list and every edit succeed, the warning line is
printed by the call exactly when the call issued no `go mod edit -replace`; in
particular it is printed when no module that starts with the prefix has a
`go.mod` at its computed local path. -/
theorem warning_iff_no_directive {W : Type} (env : Env W) (s : St W)
    (dir repoPath modulePrefix : String) (modules : List String)
    (hedit : ∀ w f, (env.goModEdit w dir f).2 = none)
    (htidy : ∀ w, (env.goModTidy w dir).2 = none)
    (hlist : ∀ w, (env.goList w dir).2 = .ok modules) :
    ∃ added : List Event,
      (applyModuleReplacements env s dir repoPath modulePrefix).1.trace = s.trace ++ added ∧
      (Event.println (warningLine modulePrefix) ∈ added ↔
        ∀ d old new, Event.goModEdit d (.replace old new) ∉ added) ∧
      ((∀ m ∈ modules, hasPrefix m modulePrefix = true →
          ∀ w, env.stat w (join [localDir repoPath m, "go.mod"]) = false) →
        Event.println (warningLine modulePrefix) ∈ added) := by
  obtain ⟨loopEvents, found, _, htr, hev, hfound⟩ :=
    applyModuleReplacements_shape env s dir repoPath modulePrefix modules hedit htidy hlist
  have hwarnLoop : Event.println (warningLine modulePrefix) ∉ loopEvents := by
    intro hmem
    obtain ⟨m, _, _, hcase⟩ := hev _ hmem
    rcases hcase with h | ⟨_, h | h⟩
    · exact absurd h (by simp)
    · simp only [Event.println.injEq] at h
      exact warningLine_ne_replaceLine modulePrefix m (localDir repoPath m) h.symm
    · exact absurd h (by simp)
  have happ : warningLine modulePrefix ≠ "Applying replacements for prefix: " ++ modulePrefix :=
    fun h => warningLine_ne_applying modulePrefix modulePrefix h.symm
  have hwarn : Event.println (warningLine modulePrefix) ∈
      [Event.println ("Applying replacements for prefix: " ++ modulePrefix),
        .goModEdit dir (.dropreplace "all"), .goModTidy dir, .goList dir] ++
      loopEvents ++ (if found then [] else [.println (warningLine modulePrefix)]) ++
      [.goModTidy dir] ↔ found = false := by
    cases found <;> simp [hwarnLoop, happ]
  have hrep : (∀ d old new, Event.goModEdit d (.replace old new) ∉
      [Event.println ("Applying replacements for prefix: " ++ modulePrefix),
        .goModEdit dir (.dropreplace "all"), .goModTidy dir, .goList dir] ++
      loopEvents ++ (if found then [] else [.println (warningLine modulePrefix)]) ++
      [.goModTidy dir]) ↔ found = false := by
    constructor
    · intro h
      cases hf : found with
      | false => rfl
      | true =>
        obtain ⟨m, hm⟩ := hfound.mp hf
        exact absurd (by simp [hm]) (h dir m (localDir repoPath m))
    · intro hf d old new hmem
      have hin : Event.goModEdit d (.replace old new) ∈ loopEvents := by
        cases found <;> simpa using hmem
      obtain ⟨m, _, _, hcase⟩ := hev _ hin
      rcases hcase with h | ⟨_, h | h⟩
      · exact absurd h (by simp)
      · exact absurd h (by simp)
      · rw [h] at hin
        have := hfound.mpr ⟨m, hin⟩
        rw [hf] at this
        exact absurd this (by simp)
  refine ⟨_, by rw [htr]; simp only [List.append_assoc], hwarn.trans hrep.symm, ?_⟩
  intro hmiss
  refine hwarn.mpr ?_
  cases hf : found with
  | false => rfl
  | true =>
    obtain ⟨m, hm⟩ := hfound.mp hf
    obtain ⟨m1, hm1, hp1, hcase⟩ := hev _ hm
    rcases hcase with h | ⟨⟨w, hw⟩, _⟩
    · exact absurd h (by simp)
    · rw [hmiss m1 hm1 hp1 w] at hw
      exact absurd hw (by simp)

/-- In the tool model a probe does not depend on the world. -/
theorem toolEnv_stat (t : Tool) (w : World) (path : String) :
    (toolEnv t).stat w path = decide (path ∈ t.goMods) := rfl

/-- Witness of C4: in the tool model with every command succeeding, the call
for the modified tree succeeds although the listed `sdk` module has no
`go.mod` under that tree. -/
theorem prefix_filtering_witness :
    (applyModuleReplacements (toolEnv demoTool) ⟨⟨[], [], []⟩, []⟩ "/w/dep" "/home/u/otel"
      "go.opentelemetry.io/otel").2 = none :=
  (prefix_filtering (toolEnv demoTool) ⟨⟨[], [], []⟩, []⟩ "/w/dep" "/home/u/otel"
    "go.opentelemetry.io/otel" demoModules
    (fun _ f => by cases f <;> rfl) (fun _ => rfl) (fun _ => rfl)).1

/-- Witness of C5: with a prefix that no listed module has, the call succeeds
and prints the warning between the list and the final tidy. -/
theorem no_match_warning_witness :
    (applyModuleReplacements (toolEnv demoTool) ⟨⟨[], [], []⟩, []⟩ "/w/dep" "/home/u/otel"
      "github.com/none").1.trace =
      [] ++ [.println ("Applying replacements for prefix: " ++ "github.com/none"),
        .goModEdit "/w/dep" (.dropreplace "all"), .goModTidy "/w/dep", .goList "/w/dep",
        .println "  WARNING: no modules matched prefix: github.com/none",
        .goModTidy "/w/dep"] :=
  (no_match_warning (toolEnv demoTool) ⟨⟨[], [], []⟩, []⟩ "/w/dep" "/home/u/otel"
    "github.com/none" demoModules
    (fun _ => rfl) (fun _ => rfl) (fun _ => rfl) (by decide)).2

/-- Witness of C10: with a source path under which no `go.mod` exists, two
listed modules start with the prefix, no directive is issued and the warning
is printed. -/
theorem warning_iff_no_directive_witness :
    Event.println (warningLine "go.opentelemetry.io/otel") ∈
      (applyModuleReplacements (toolEnv demoTool) ⟨⟨[], [], []⟩, []⟩ "/w/dep" "/nowhere"
        "go.opentelemetry.io/otel").1.trace := by
  obtain ⟨added, htr, _, h⟩ := warning_iff_no_directive (toolEnv demoTool) ⟨⟨[], [], []⟩, []⟩
    "/w/dep" "/nowhere" "go.opentelemetry.io/otel" demoModules
    (fun _ f => by cases f <;> rfl) (fun _ => rfl) (fun _ => rfl)
  rw [htr]
  refine List.mem_append_right _ (h ?_)
  intro m hm _ w
  simp only [demoModules, List.mem_cons, List.mem_singleton, List.not_mem_nil, or_false] at hm
  rcases hm with rfl | rfl | rfl <;> rw [toolEnv_stat] <;> decide

/-! ### Path computation -/

/-- Copying an element leaves no more unread input than there was. -/
theorem cleanCopy_length (out l : List Char) : (cleanCopy out l).2.length ≤ l.length := by
  induction l generalizing out with
  | nil => simp [cleanCopy]
  | cons c t ih =>
    simp only [cleanCopy]
    split
    · simp
    · exact Nat.le_trans (ih (c :: out)) (by simp)

/-- Copying an element stops at the first separator, so a separator appended to
the input stays in the unread part. -/
theorem cleanCopy_snoc (out l : List Char) :
    cleanCopy out (l ++ ['/']) = ((cleanCopy out l).1, (cleanCopy out l).2 ++ ['/']) := by
  induction l generalizing out with
  | nil => simp [cleanCopy]
  | cons c t ih =>
    simp only [List.cons_append, cleanCopy]
    split
    · simp
    · exact ih (c :: out)

/-- The loop of `Clean` stops on empty input. -/
theorem cleanLoop_nil (rooted : Bool) (fuel : Nat) (out : List Char) (dotdot : Nat) :
    cleanLoop rooted fuel [] out dotdot = out := by
  cases fuel <;> simp [cleanLoop]

/-- A lone separator is an empty element. -/
theorem cleanLoop_slash (rooted : Bool) (fuel : Nat) (out : List Char) (dotdot : Nat) :
    cleanLoop rooted fuel ['/'] out dotdot = out := by
  cases fuel <;> simp [cleanLoop, cleanLoop_nil]

/-- A trailing separator is an empty element: with enough fuel the loop gives
the same buffer with and without it. -/
theorem cleanLoop_snoc (rooted : Bool) (fuel fuel1 : Nat) (rest out : List Char) (dotdot : Nat)
    (h : rest.length < fuel) (h1 : rest.length ≤ fuel1) :
    cleanLoop rooted fuel (rest ++ ['/']) out dotdot = cleanLoop rooted fuel1 rest out dotdot := by
  induction fuel generalizing fuel1 rest out dotdot with
  | zero => omega
  | succ n ih =>
    cases rest with
    | nil => simp [cleanLoop, cleanLoop_nil]
    | cons c t =>
      cases fuel1 with
      | zero => simp at h1
      | succ k =>
        simp only [List.length_cons] at h h1
        have hdefault : ∀ o : List Char, c ≠ '/' →
            cleanLoop rooted n (cleanCopy o (c :: (t ++ ['/']))).2
              (cleanCopy o (c :: (t ++ ['/']))).1 dotdot =
            cleanLoop rooted k (cleanCopy o (c :: t)).2 (cleanCopy o (c :: t)).1 dotdot := by
          intro o hc
          have e1 : c :: (t ++ ['/']) = (c :: t) ++ ['/'] := rfl
          rw [e1, cleanCopy_snoc]
          have hlen : (cleanCopy o (c :: t)).2.length ≤ t.length := by
            simp only [cleanCopy, hc, if_false]
            exact cleanCopy_length _ _
          exact ih k _ _ dotdot (by omega) (by omega)
        by_cases hc : c = '/'
        · subst hc
          simp only [List.cons_append, List.append_eq, cleanLoop, if_true]
          exact ih k t out dotdot (by omega) (by omega)
        · by_cases hd : c = '.'
          · subst hd
            cases t with
            | nil => simp [cleanLoop, cleanLoop_nil, cleanLoop_slash]
            | cons d u =>
              simp only [List.length_cons] at h h1
              by_cases hd1 : d = '/'
              · subst hd1
                simp only [List.cons_append, List.append_eq, cleanLoop, List.head?_cons, or_true, and_self,
                  if_true, show ('.' : Char) ≠ '/' by decide, if_false]
                exact ih k ('/' :: u) out dotdot (by simp; omega) (by simp; omega)
              · by_cases hd2 : d = '.'
                · subst hd2
                  have hcond : ((u ++ ['/'] = [] ∨ (u ++ ['/']).head? = some '/') ↔
                      (u = [] ∨ u.head? = some '/')) := by
                    cases u <;> simp
                  by_cases hu : u = [] ∨ u.head? = some '/'
                  · have hu2 := hcond.mpr hu
                    simp only [List.cons_append, List.append_eq, cleanLoop, List.head?_cons, List.tail_cons,
                      hu, hu2, true_and, and_true, Option.some.injEq, reduceCtorEq, or_false,
                      if_false, if_true, show ('.' : Char) ≠ '/' by decide, and_false]
                    rw [ih k u (cleanBacktrack dotdot out) dotdot (by omega) (by omega),
                      ih k u ('.' :: '.' :: if out.length > 0 then '/' :: out else out)
                        ((if out.length > 0 then '/' :: out else out).length + 2)
                        (by omega) (by omega),
                      ih k u out dotdot (by omega) (by omega)]
                  · have hu2 : ¬ (u ++ ['/'] = [] ∨ (u ++ ['/']).head? = some '/') :=
                      fun hh => hu (hcond.mp hh)
                    simp only [List.cons_append, List.append_eq, cleanLoop, List.head?_cons, List.tail_cons,
                      hu, hu2, true_and, and_false, Option.some.injEq, reduceCtorEq, or_false,
                      if_false, show ('.' : Char) ≠ '/' by decide]
                    exact hdefault _ (by decide)
                · simp only [List.cons_append, List.append_eq, cleanLoop, List.head?_cons, Option.some.injEq,
                    hd1, hd2, reduceCtorEq, or_false, and_false, false_and, if_false, true_and,
                    show ('.' : Char) ≠ '/' by decide, Ne.symm hd1, Ne.symm hd2]
                  exact hdefault _ (by decide)
          · simp only [List.cons_append, List.append_eq, cleanLoop, hc, hd, false_and, if_false]
            exact hdefault _ hc

/-- `Clean` ignores a trailing separator. -/
theorem clean_snoc (path : List Char) (h : path ≠ []) : clean (path ++ ['/']) = clean path := by
  cases path with
  | nil => exact absurd rfl h
  | cons c t =>
    simp only [clean, List.cons_append, List.tail_cons, List.length_cons, List.length_append,
      List.length_singleton]
    by_cases hc : c = '/'
    · simp only [hc, decide_True, if_true]
      rw [cleanLoop_snoc true _ (t.length + 1) t ['/'] 1 (by omega) (by omega)]
    · simp only [hc, decide_False, Bool.false_eq_true, if_false]
      have e1 : c :: (t ++ ['/']) = (c :: t) ++ ['/'] := rfl
      rw [e1, cleanLoop_snoc false _ (t.length + 1) (c :: t) [] 0 (by simp) (by simp)]

/-- Joining a path with the empty string is joining the path alone. -/
theorem join_root (p : String) : join [p, ""] = join [p] := by
  by_cases hp : p = ""
  · subst hp
    decide
  · have hd : p.data ≠ [] := fun h => hp (String.ext h)
    simp only [join, hp, if_false, List.map_cons, List.map_nil, strJoin]
    have : p.data ++ ['/'] ++ "".data = p.data ++ ['/'] := by simp
    rw [this, clean_snoc p.data hd]

/-- Every module that passes the filter is probed: when the loop ends without
error, the trace it adds holds, for every listed module that starts with the
prefix, the probe of `go.mod` in its local directory, and, when that file is
there in every world, the announcement and the `go mod edit -replace` to that
directory. -/
theorem replaceModules_probes {W : Type} (env : Env W) (dir repoPath modulePrefix : String)
    (ms : List String) (s : St W) (found f : Bool) (added : List Event)
    (htr : (replaceModules env dir repoPath modulePrefix ms s found).1.trace = s.trace ++ added)
    (hok : (replaceModules env dir repoPath modulePrefix ms s found).2 = .ok f) :
    ∀ m ∈ ms, hasPrefix m modulePrefix = true →
      Event.stat (join [localDir repoPath m, "go.mod"]) ∈ added ∧
      ((∀ w, env.stat w (join [localDir repoPath m, "go.mod"]) = true) →
        Event.println ("  replace " ++ m ++ " => " ++ localDir repoPath m) ∈ added ∧
        Event.goModEdit dir (.replace m (localDir repoPath m)) ∈ added) := by
  induction ms generalizing s found added with
  | nil =>
    intro m hm
    exact absurd hm (List.not_mem_nil m)
  | cons m0 ms ih =>
    by_cases hp : hasPrefix m0 modulePrefix = true
    · by_cases hs : env.stat s.world (join [localDir repoPath m0, "go.mod"]) = true
      · cases hr : (env.goModEdit s.world dir (.replace m0 (localDir repoPath m0))).2 with
        | some e =>
          have hstep : (replaceModules env dir repoPath modulePrefix (m0 :: ms) s found).2 =
              .error ("replace failed for " ++ m0 ++ ": " ++ e) := by
            simp [replaceModules, hp, hs, hr, St.emit, St.call]
          rw [hstep] at hok
          exact absurd hok (by simp)
        | none =>
          have hstep : replaceModules env dir repoPath modulePrefix (m0 :: ms) s found =
              replaceModules env dir repoPath modulePrefix ms
                ⟨(env.goModEdit s.world dir (.replace m0 (localDir repoPath m0))).1,
                  s.trace ++ [.stat (join [localDir repoPath m0, "go.mod"]),
                    .println ("  replace " ++ m0 ++ " => " ++ localDir repoPath m0),
                    .goModEdit dir (.replace m0 (localDir repoPath m0))]⟩ true := by
            simp [replaceModules, hp, hs, hr, St.emit, St.call]
          obtain ⟨rest, hrest, _⟩ := replaceModules_trace env dir repoPath modulePrefix ms
            ⟨(env.goModEdit s.world dir (.replace m0 (localDir repoPath m0))).1,
              s.trace ++ [.stat (join [localDir repoPath m0, "go.mod"]),
                .println ("  replace " ++ m0 ++ " => " ++ localDir repoPath m0),
                .goModEdit dir (.replace m0 (localDir repoPath m0))]⟩ true
          rw [hstep] at htr hok
          have hadded : added = [.stat (join [localDir repoPath m0, "go.mod"]),
              .println ("  replace " ++ m0 ++ " => " ++ localDir repoPath m0),
              .goModEdit dir (.replace m0 (localDir repoPath m0))] ++ rest := by
            rw [hrest] at htr
            simp only [List.append_assoc] at htr
            exact (List.append_cancel_left htr).symm
          intro m hm hpm
          rcases List.mem_cons.mp hm with h | h
          · subst h
            rw [hadded]
            exact ⟨by simp, fun _ => ⟨by simp, by simp⟩⟩
          · obtain ⟨h1, h2⟩ := ih _ true rest hrest hok m h hpm
            rw [hadded]
            exact ⟨List.mem_append_right _ h1, fun hw =>
              ⟨List.mem_append_right _ (h2 hw).1, List.mem_append_right _ (h2 hw).2⟩⟩
      · have hstep : replaceModules env dir repoPath modulePrefix (m0 :: ms) s found =
            replaceModules env dir repoPath modulePrefix ms
              ⟨s.world, s.trace ++ [.stat (join [localDir repoPath m0, "go.mod"])]⟩ found := by
          simp [replaceModules, hp, hs, St.emit]
        obtain ⟨rest, hrest, _⟩ := replaceModules_trace env dir repoPath modulePrefix ms
          ⟨s.world, s.trace ++ [.stat (join [localDir repoPath m0, "go.mod"])]⟩ found
        rw [hstep] at htr hok
        have hadded : added = [.stat (join [localDir repoPath m0, "go.mod"])] ++ rest := by
          rw [hrest] at htr
          simp only [List.append_assoc] at htr
          exact (List.append_cancel_left htr).symm
        intro m hm hpm
        rcases List.mem_cons.mp hm with h | h
        · subst h
          rw [hadded]
          exact ⟨by simp, fun hw => absurd (hw s.world) hs⟩
        · obtain ⟨h1, h2⟩ := ih _ found rest hrest hok m h hpm
          rw [hadded]
          exact ⟨List.mem_append_right _ h1, fun hw =>
            ⟨List.mem_append_right _ (h2 hw).1, List.mem_append_right _ (h2 hw).2⟩⟩
    · have hstep : replaceModules env dir repoPath modulePrefix (m0 :: ms) s found =
          replaceModules env dir repoPath modulePrefix ms s found := by
        simp [replaceModules, hp]
      rw [hstep] at htr hok
      intro m hm hpm
      rcases List.mem_cons.mp hm with h | h
      · subst h
        exact absurd hpm hp
      · exact ih s found added htr hok m h hpm

/-- C9 (as stated, fails on the code): with the source path `/home/u/otel/` the
root module does not map to the source path as written; `filepath.Join`
returns the cleaned path `/home/u/otel`. -/
theorem root_module_not_source_path :
    localDir "/home/u/otel/" "go.opentelemetry.io/otel" = "/home/u/otel" ∧
    localDir "/home/u/otel/" "go.opentelemetry.io/otel" ≠ "/home/u/otel/" := by
  constructor <;> decide

/-- C9 (amended): sub-path computation.  Whatever the configured prefix, the
loop probes, for every listed module `m` that starts with the prefix, the
`go.mod` in `filepath.Join(repoPath, strings.TrimPrefix(m,
"go.opentelemetry.io/otel"))` and, when it is there, redirects `m` to that
directory; it issues no other probe or directive.  For a name that starts
with the fixed root this is `repoPath` joined with the rest of the name; the
root module itself maps to `filepath.Join(repoPath)`, which is `repoPath` in
cleaned form, and `repoPath` itself when it is empty or already clean; for a
name that does not start with the fixed root the whole name is appended. -/
theorem local_dir_relative_to_fixed_root :
    (∀ (W : Type) (env : Env W) (dir repoPath modulePrefix : String) (ms : List String)
        (s : St W) (found : Bool),
      ∃ added : List Event,
        (replaceModules env dir repoPath modulePrefix ms s found).1.trace = s.trace ++ added ∧
        (∀ e ∈ added, ∃ m ∈ ms, hasPrefix m modulePrefix = true ∧
          (e = .stat (join [join [repoPath, trimPrefix m "go.opentelemetry.io/otel"], "go.mod"]) ∨
           e = .println ("  replace " ++ m ++ " => " ++
              join [repoPath, trimPrefix m "go.opentelemetry.io/otel"]) ∨
           e = .goModEdit dir
              (.replace m (join [repoPath, trimPrefix m "go.opentelemetry.io/otel"])))) ∧
        (∀ f, (replaceModules env dir repoPath modulePrefix ms s found).2 = .ok f →
          ∀ m ∈ ms, hasPrefix m modulePrefix = true →
            Event.stat (join [join [repoPath, trimPrefix m "go.opentelemetry.io/otel"],
              "go.mod"]) ∈ added ∧
            ((∀ w, env.stat w (join [join [repoPath, trimPrefix m "go.opentelemetry.io/otel"],
                "go.mod"]) = true) →
              Event.goModEdit dir
                (.replace m (join [repoPath, trimPrefix m "go.opentelemetry.io/otel"])) ∈
                added))) ∧
    (∀ repoPath m : String, hasPrefix m "go.opentelemetry.io/otel" = true →
      localDir repoPath m = join [repoPath, ⟨m.data.drop 24⟩]) ∧
    (∀ repoPath : String, localDir repoPath "go.opentelemetry.io/otel" = join [repoPath]) ∧
    (∀ repoPath : String, repoPath ≠ "" →
      localDir repoPath "go.opentelemetry.io/otel" = ⟨clean repoPath.data⟩) ∧
    (∀ repoPath : String, repoPath = "" ∨ clean repoPath.data = repoPath.data →
      localDir repoPath "go.opentelemetry.io/otel" = repoPath) ∧
    (∀ repoPath m : String, hasPrefix m "go.opentelemetry.io/otel" = false →
      localDir repoPath m = join [repoPath, m]) ∧
    localDir "/home/u/otel" "go.opentelemetry.io/otel/sdk/metric" = "/home/u/otel/sdk/metric" ∧
    localDir "/home/u/lib" "github.com/foo/bar" = "/home/u/lib/github.com/foo/bar" := by
  have hroot : ∀ repoPath : String,
      localDir repoPath "go.opentelemetry.io/otel" = join [repoPath] := by
    intro repoPath
    have : trimPrefix "go.opentelemetry.io/otel" otelRoot = "" := by decide
    simp only [localDir, this]
    exact join_root repoPath
  refine ⟨?_, ?_, hroot, ?_, ?_, ?_, by decide, by decide⟩
  · intro W env dir repoPath modulePrefix ms s found
    obtain ⟨added, htr, hev, _⟩ :=
      replaceModules_trace env dir repoPath modulePrefix ms s found
    refine ⟨added, htr, ?_, ?_⟩
    · intro e he
      obtain ⟨m, hm, hp, hcase⟩ := hev e he
      refine ⟨m, hm, hp, ?_⟩
      rcases hcase with h | ⟨_, h | h⟩
      · exact Or.inl h
      · exact Or.inr (Or.inl h)
      · exact Or.inr (Or.inr h)
    · intro f hf m hm hp
      obtain ⟨h1, h2⟩ :=
        replaceModules_probes env dir repoPath modulePrefix ms s found f added htr hf m hm hp
      exact ⟨h1, fun hw => (h2 hw).2⟩
  · intro repoPath m hm
    simp only [localDir, trimPrefix, otelRoot] at hm ⊢
    simp only [hm, if_true]
    rfl
  · intro repoPath hne
    rw [hroot]
    simp only [join, hne, if_false, List.map_cons, List.map_nil, strJoin]
  · intro repoPath hclean
    rw [hroot]
    rcases hclean with h | h
    · subst h
      decide
    · have hne : repoPath ≠ "" := by
        intro h0
        subst h0
        exact absurd h (by decide)
      simp only [join, hne, if_false, List.map_cons, List.map_nil, strJoin, h]
  · intro repoPath m hm
    simp only [localDir, trimPrefix, otelRoot] at hm ⊢
    simp [hm]

/-! ### The directives in the tool model -/

/-- Membership after the loop of `AddReplace`: the directives for other
modules stay, those for `old` go, and the new directive is there when it was
still needed. -/
theorem mem_addReplaceAux (old new : String) (need : Bool) (rs : List Replace) (x : Replace) :
    x ∈ addReplaceAux old new need rs ↔
      (x ∈ rs ∧ x.oldPath ≠ old) ∨ (need = true ∧ x = Replace.unversioned old new) := by
  induction rs generalizing need with
  | nil => cases need <;> simp [addReplaceAux]
  | cons r rs ih =>
    by_cases hr : r.oldPath = old
    · cases need
      · simp only [addReplaceAux, hr, if_true, Bool.false_eq_true, if_false, ih,
          List.mem_cons, false_and, or_false]
        constructor
        · rintro ⟨h1, h2⟩
          exact ⟨Or.inr h1, h2⟩
        · rintro ⟨h1 | h1, h2⟩
          · rw [h1] at h2
            exact absurd hr h2
          · exact ⟨h1, h2⟩
      · simp only [addReplaceAux, hr, if_true, List.mem_cons, ih, Bool.false_eq_true,
          false_and, or_false, true_and]
        constructor
        · rintro (h | ⟨h1, h2⟩)
          · exact Or.inr h
          · exact Or.inl ⟨Or.inr h1, h2⟩
        · rintro (⟨h1 | h1, h2⟩ | h)
          · rw [h1] at h2
            exact absurd hr h2
          · exact Or.inr ⟨h1, h2⟩
          · exact Or.inl h
    · simp only [addReplaceAux, hr, if_false, List.mem_cons, ih]
      constructor
      · rintro (h | ⟨h1, h2⟩ | h)
        · exact Or.inl ⟨Or.inl h, by rw [h]; exact hr⟩
        · exact Or.inl ⟨Or.inr h1, h2⟩
        · exact Or.inr h
      · rintro (⟨h1 | h1, h2⟩ | h)
        · exact Or.inl h1
        · exact Or.inr (Or.inl ⟨h1, h2⟩)
        · exact Or.inr (Or.inr h)

/-- Membership after `go mod edit -replace=old=new`. -/
theorem mem_addReplace (rs : List Replace) (old new : String) (x : Replace) :
    x ∈ addReplace rs old new ↔
      (x ∈ rs ∧ x.oldPath ≠ old) ∨ x = Replace.unversioned old new := by
  simp [addReplace, mem_addReplaceAux]

/-- The directives after the loop of `applyModuleReplacements` in the tool
model, when the loop ends without error: the earlier directives whose module
was not substituted, and one directive to the local directory for every
listed module that starts with the prefix and has a `go.mod` there. -/
theorem toolEnv_replaceModules_replaces (t : Tool) (dir repoPath modulePrefix : String)
    (ms : List String) (s : St World) (found f : Bool)
    (hok : (replaceModules (toolEnv t) dir repoPath modulePrefix ms s found).2 = .ok f)
    (x : Replace) :
    x ∈ (replaceModules (toolEnv t) dir repoPath modulePrefix ms s found).1.world.replaces ↔
      (x ∈ s.world.replaces ∧
        ∀ m ∈ ms, hasPrefix m modulePrefix = true →
          join [localDir repoPath m, "go.mod"] ∈ t.goMods → x.oldPath ≠ m) ∨
      ∃ m ∈ ms, hasPrefix m modulePrefix = true ∧
        join [localDir repoPath m, "go.mod"] ∈ t.goMods ∧
        x = Replace.unversioned m (localDir repoPath m) := by
  induction ms generalizing s found with
  | nil => simp [replaceModules]
  | cons m ms ih =>
    by_cases hp : hasPrefix m modulePrefix = true
    · by_cases hs : join [localDir repoPath m, "go.mod"] ∈ t.goMods
      · by_cases he : t.editFails (.replace m (localDir repoPath m)) = true
        · simp [replaceModules, hp, hs, toolEnv, he] at hok
        · have hstep : replaceModules (toolEnv t) dir repoPath modulePrefix (m :: ms) s found =
              replaceModules (toolEnv t) dir repoPath modulePrefix ms
                ⟨⟨s.world.dirs, addReplace s.world.replaces m (localDir repoPath m),
                    s.world.requires⟩,
                  s.trace ++ [.stat (join [localDir repoPath m, "go.mod"]),
                    .println ("  replace " ++ m ++ " => " ++ localDir repoPath m),
                    .goModEdit dir (.replace m (localDir repoPath m))]⟩ true := by
            simp [replaceModules, hp, hs, toolEnv, he, St.emit, St.call]
          rw [hstep] at hok ⊢
          rw [ih _ true hok]
          simp only [mem_addReplace, List.mem_cons, forall_eq_or_imp, exists_eq_or_imp, hp, hs,
            true_and, forall_true_left]
          constructor
          · rintro (⟨(⟨h1, h2⟩ | h1), h3⟩ | h)
            · exact Or.inl ⟨h1, h2, h3⟩
            · exact Or.inr (Or.inl h1)
            · exact Or.inr (Or.inr h)
          · rintro (⟨h1, h2, h3⟩ | h | h)
            · exact Or.inl ⟨Or.inl ⟨h1, h2⟩, h3⟩
            · by_cases hdup : ∃ m1 ∈ ms, hasPrefix m1 modulePrefix = true ∧
                  join [localDir repoPath m1, "go.mod"] ∈ t.goMods ∧ m1 = m
              · obtain ⟨m1, hm1, hp1, hs1, heq⟩ := hdup
                subst heq
                exact Or.inr ⟨m1, hm1, hp1, hs1, h⟩
              · refine Or.inl ⟨Or.inr h, ?_⟩
                intro m1 hm1 hp1 hs1 heq
                refine hdup ⟨m1, hm1, hp1, hs1, ?_⟩
                rw [h] at heq
                exact heq.symm
            · exact Or.inr h
      · have hstep : replaceModules (toolEnv t) dir repoPath modulePrefix (m :: ms) s found =
            replaceModules (toolEnv t) dir repoPath modulePrefix ms
              ⟨s.world, s.trace ++ [.stat (join [localDir repoPath m, "go.mod"])]⟩ found := by
          simp [replaceModules, hp, hs, toolEnv, St.emit]
        rw [hstep] at hok ⊢
        rw [ih _ found hok]
        simp [hs]
    · have hstep : replaceModules (toolEnv t) dir repoPath modulePrefix (m :: ms) s found =
          replaceModules (toolEnv t) dir repoPath modulePrefix ms s found := by
        simp [replaceModules, hp]
      rw [hstep] at hok ⊢
      rw [ih _ found hok]
      simp [hp]

/-- The directives after a successful call of `applyModuleReplacements` in the
tool model, when `go list` printed `modules` in that call: the earlier
directives that the drop flag did not select and whose module was not
substituted, and one directive to the local directory for every listed module
that starts with the prefix and has a `go.mod` there. -/
theorem toolEnv_apply_replaces (t : Tool) (s : St World) (dir repoPath modulePrefix : String)
    (modules : List String)
    (hl : listingOf (toolEnv t) s.world dir = .ok modules)
    (hok : (applyModuleReplacements (toolEnv t) s dir repoPath modulePrefix).2 = none)
    (x : Replace) :
    x ∈ (applyModuleReplacements (toolEnv t) s dir repoPath modulePrefix).1.world.replaces ↔
      (x ∈ s.world.replaces ∧ t.drops "all" x = false ∧
        ∀ m ∈ modules, hasPrefix m modulePrefix = true →
          join [localDir repoPath m, "go.mod"] ∈ t.goMods → x.oldPath ≠ m) ∨
      ∃ m ∈ modules, hasPrefix m modulePrefix = true ∧
        join [localDir repoPath m, "go.mod"] ∈ t.goMods ∧
        x = Replace.unversioned m (localDir repoPath m) := by
  by_cases hd : t.editFails (.dropreplace "all") = true
  · simp [applyModuleReplacements, toolEnv, hd] at hok
  · by_cases ht : t.tidyFails (s.world.replaces.filter (fun r => !t.drops "all" r)) = true
    · simp [applyModuleReplacements, toolEnv, hd, ht, St.emit, St.call] at hok
    · have hE : (toolEnv t).goModEdit s.world dir (.dropreplace "all") =
          (⟨s.world.dirs, s.world.replaces.filter (fun r => !t.drops "all" r),
            s.world.requires⟩, none) := by
        simp [toolEnv, hd]
      have hT : (toolEnv t).goModTidy
          ⟨s.world.dirs, s.world.replaces.filter (fun r => !t.drops "all" r),
            s.world.requires⟩ dir =
          (⟨s.world.dirs, s.world.replaces.filter (fun r => !t.drops "all" r),
            t.tidy (s.world.replaces.filter (fun r => !t.drops "all" r)) s.world.requires⟩,
            none) := by
        simp [toolEnv, ht]
      have hL : (toolEnv t).goList
          ⟨s.world.dirs, s.world.replaces.filter (fun r => !t.drops "all" r),
            t.tidy (s.world.replaces.filter (fun r => !t.drops "all" r)) s.world.requires⟩ dir =
          (⟨s.world.dirs, s.world.replaces.filter (fun r => !t.drops "all" r),
            t.tidy (s.world.replaces.filter (fun r => !t.drops "all" r)) s.world.requires⟩,
            .ok modules) := by
        have h0 := hl
        simp only [listingOf, hE, hT] at h0
        exact Prod.ext rfl h0
      have hF : ∀ (s4 : St World) (found : Bool),
          (finishReplacements (toolEnv t) dir modulePrefix s4 found).1.world.replaces =
            s4.world.replaces := by
        intro s4 found
        have hw : ∀ w : World, ((toolEnv t).goModTidy w dir).1.replaces = w.replaces := by
          intro w
          simp only [toolEnv]
          split <;> rfl
        simp only [finishReplacements, St.call]
        cases found <;> simp only [St.emit] <;> split <;> simp [hw]
      cases hloop : replaceModules (toolEnv t) dir repoPath modulePrefix modules
          ⟨⟨s.world.dirs, s.world.replaces.filter (fun r => !t.drops "all" r),
            t.tidy (s.world.replaces.filter (fun r => !t.drops "all" r)) s.world.requires⟩,
            s.trace ++ [.println ("Applying replacements for prefix: " ++ modulePrefix),
              .goModEdit dir (.dropreplace "all"), .goModTidy dir, .goList dir]⟩ false with
      | mk s4 r =>
        cases r with
        | error e =>
          have hcall : applyModuleReplacements (toolEnv t) s dir repoPath modulePrefix =
              (s4, some e) := by
            simp only [applyModuleReplacements, listModules, St.emit, St.call, hE,
              hT, hL, List.append_assoc, List.singleton_append, List.cons_append,
              List.nil_append, hloop]
          rw [hcall] at hok
          simp at hok
        | ok found =>
          have hcall : applyModuleReplacements (toolEnv t) s dir repoPath modulePrefix =
              finishReplacements (toolEnv t) dir modulePrefix s4 found := by
            simp only [applyModuleReplacements, listModules, St.emit, St.call, hE,
              hT, hL, List.append_assoc, List.singleton_append, List.cons_append,
              List.nil_append, hloop]
          have hw : (applyModuleReplacements (toolEnv t) s dir repoPath
              modulePrefix).1.world.replaces = s4.world.replaces := by
            rw [hcall]
            exact hF s4 found
          have hmem := toolEnv_replaceModules_replaces t dir repoPath modulePrefix modules
            ⟨⟨s.world.dirs, s.world.replaces.filter (fun r => !t.drops "all" r),
              t.tidy (s.world.replaces.filter (fun r => !t.drops "all" r)) s.world.requires⟩,
              s.trace ++ [.println ("Applying replacements for prefix: " ++ modulePrefix),
                .goModEdit dir (.dropreplace "all"), .goModTidy dir, .goList dir]⟩ false found
            (by rw [hloop]) x
          rw [hloop] at hmem
          rw [hw, hmem]
          simp only [List.mem_filter, Bool.not_eq_true', and_assoc]

/-- Were the drop flag to select every directive, a successful call would leave
only the directives it adds itself, each to the local directory under the
given source path. -/
theorem toolEnv_apply_replaces_of_drop_all (t : Tool) (s : St World)
    (dir repoPath modulePrefix : String) (modules : List String)
    (hl : listingOf (toolEnv t) s.world dir = .ok modules)
    (hall : ∀ r, t.drops "all" r = true)
    (hok : (applyModuleReplacements (toolEnv t) s dir repoPath modulePrefix).2 = none)
    (x : Replace)
    (hx : x ∈ (applyModuleReplacements (toolEnv t) s dir repoPath modulePrefix).1.world.replaces) :
    ∃ m ∈ modules, hasPrefix m modulePrefix = true ∧
      x = Replace.unversioned m (localDir repoPath m) := by
  rcases (toolEnv_apply_replaces t s dir repoPath modulePrefix modules hl hok x).mp hx with
    ⟨_, h, _⟩ | ⟨m, hm, hp, _, hxm⟩
  · rw [hall x] at h
    exact absurd h (by simp)
  · exact ⟨m, hm, hp, hxm⟩

/-- In the tool model `go list` always prints a list. -/
theorem toolEnv_listingOf (t : Tool) (w : World) (dir : String) :
    ∃ modules, listingOf (toolEnv t) w dir = .ok modules :=
  ⟨_, rfl⟩

/-- C6 (as stated, fails on the code): in the tool model with the module graph
of `graphTool`, two calls in a row with the same arguments both succeed, the
tools and the files are the same in both, and the second call leaves a
directive for the `trace` module that the first call did not leave: the list
printed in the second call holds one module more. -/
theorem substitution_not_idempotent :
    (applyModuleReplacements (toolEnv graphTool) ⟨⟨[], [], []⟩, []⟩ "/w/dep" "/home/u/otel"
      "go.opentelemetry.io/otel").2 = none ∧
    (applyModuleReplacements (toolEnv graphTool)
      (applyModuleReplacements (toolEnv graphTool) ⟨⟨[], [], []⟩, []⟩ "/w/dep" "/home/u/otel"
        "go.opentelemetry.io/otel").1
      "/w/dep" "/home/u/otel" "go.opentelemetry.io/otel").2 = none ∧
    (applyModuleReplacements (toolEnv graphTool) ⟨⟨[], [], []⟩, []⟩ "/w/dep" "/home/u/otel"
      "go.opentelemetry.io/otel").1.world.replaces =
      [⟨"go.opentelemetry.io/otel", "", "/home/u/otel", ""⟩] ∧
    (applyModuleReplacements (toolEnv graphTool)
      (applyModuleReplacements (toolEnv graphTool) ⟨⟨[], [], []⟩, []⟩ "/w/dep" "/home/u/otel"
        "go.opentelemetry.io/otel").1
      "/w/dep" "/home/u/otel" "go.opentelemetry.io/otel").1.world.replaces =
      [⟨"go.opentelemetry.io/otel", "", "/home/u/otel", ""⟩,
       ⟨"go.opentelemetry.io/otel/trace", "", "/home/u/otel/trace", ""⟩] := by
  refine ⟨?_, ?_, ?_, ?_⟩ <;> decide

/-- C6 (amended): idempotence of the substitution in the tool model, when the
second call lists the modules that the first call listed.  For every initial
manifest, source path and prefix, whatever directives the drop flag selects
and however the module graph is resolved: when two calls in a row with the
same arguments both succeed and `go list` prints the same module list in the
second call as in the first, the manifest holds the same set of `replace`
directives after the second call as after the first. -/
theorem substitution_idempotent (t : Tool) (s : St World) (dir repoPath modulePrefix : String)
    (h1 : (applyModuleReplacements (toolEnv t) s dir repoPath modulePrefix).2 = none)
    (h2 : (applyModuleReplacements (toolEnv t)
      (applyModuleReplacements (toolEnv t) s dir repoPath modulePrefix).1
      dir repoPath modulePrefix).2 = none)
    (hlist : listingOf (toolEnv t)
        (applyModuleReplacements (toolEnv t) s dir repoPath modulePrefix).1.world dir =
      listingOf (toolEnv t) s.world dir) :
    ∀ x : Replace,
      x ∈ (applyModuleReplacements (toolEnv t)
          (applyModuleReplacements (toolEnv t) s dir repoPath modulePrefix).1
          dir repoPath modulePrefix).1.world.replaces ↔
      x ∈ (applyModuleReplacements (toolEnv t) s dir repoPath modulePrefix).1.world.replaces := by
  intro x
  obtain ⟨modules, hm⟩ := toolEnv_listingOf t s.world dir
  rw [toolEnv_apply_replaces t _ dir repoPath modulePrefix modules (hlist.trans hm) h2 x,
    toolEnv_apply_replaces t s dir repoPath modulePrefix modules hm h1 x]
  constructor
  · rintro (⟨h | h, _, _⟩ | h)
    · exact Or.inl h
    · exact Or.inr h
    · exact Or.inr h
  · rintro (⟨ha, hb, hc⟩ | h)
    · exact Or.inl ⟨Or.inl ⟨ha, hb, hc⟩, hb, hc⟩
    · exact Or.inr h

/-- Witness of C6 (amended): starting from a manifest that already redirects
two modules, with a module graph that does not depend on the manifest, two
calls for the modified tree succeed and leave the same directives as one
call. -/
theorem substitution_idempotent_witness :
    Replace.unversioned "go.opentelemetry.io/otel" "/home/u/otel" ∈
        (applyModuleReplacements (toolEnv demoTool)
          (applyModuleReplacements (toolEnv demoTool)
            ⟨⟨[], [⟨"example.com/x", "", "../x", ""⟩,
              ⟨"go.opentelemetry.io/otel", "v1.0.0", "/old", ""⟩], []⟩, []⟩
            "/w/dep" "/home/u/otel" "go.opentelemetry.io/otel").1
          "/w/dep" "/home/u/otel" "go.opentelemetry.io/otel").1.world.replaces ↔
      Replace.unversioned "go.opentelemetry.io/otel" "/home/u/otel" ∈
        (applyModuleReplacements (toolEnv demoTool)
          ⟨⟨[], [⟨"example.com/x", "", "../x", ""⟩,
            ⟨"go.opentelemetry.io/otel", "v1.0.0", "/old", ""⟩], []⟩, []⟩
          "/w/dep" "/home/u/otel" "go.opentelemetry.io/otel").1.world.replaces :=
  substitution_idempotent demoTool
    ⟨⟨[], [⟨"example.com/x", "", "../x", ""⟩,
      ⟨"go.opentelemetry.io/otel", "v1.0.0", "/old", ""⟩], []⟩, []⟩
    "/w/dep" "/home/u/otel" "go.opentelemetry.io/otel" (by decide) (by decide) rfl
    (Replace.unversioned "go.opentelemetry.io/otel" "/home/u/otel")

/-- C7 (fails on the code): `go mod edit -dropreplace=all` drops the replacement
of a module named `all`, so it drops nothing here.  The dependent lists the
target root module and its `sdk` module; the released checkout has both, the
modified tree only the root module.  After both substitutions succeeded, the
manifest under the MODIFIED tests still holds the directive of the RELEASED
phase that points `sdk` into the released checkout. -/
theorem released_directive_survives :
    (runForDependent (toolEnv demoTool) ⟨⟨[], [], []⟩, []⟩ "/tmp/otel-impact-1"
      ⟨"https://example.com/a.git", ".", "main"⟩ "/tmp/otel-impact-1/released" "/home/u/otel"
      "go.opentelemetry.io/otel").2 = none ∧
    (runForDependent (toolEnv demoTool) ⟨⟨[], [], []⟩, []⟩ "/tmp/otel-impact-1"
      ⟨"https://example.com/a.git", ".", "main"⟩ "/tmp/otel-impact-1/released" "/home/u/otel"
      "go.opentelemetry.io/otel").1.world.replaces =
      [⟨"go.opentelemetry.io/otel", "", "/home/u/otel", ""⟩,
       ⟨"go.opentelemetry.io/otel/sdk", "", "/tmp/otel-impact-1/released/sdk", ""⟩] := by
  constructor <;> decide

end Impact
